import Mathlib

/-!
# IA-64 unwind tables (`src/ia64/tables-ia64.c`)

A shallow embedding of the table lookup, the procedure-info decoder, the
release operation, the dynamic-list scan, the module locator and the kernel
table provider of `tables-ia64.c`, followed by theorems about them.

Conventions of the embedding:
* `unw_word_t`, `uint64_t`, `size_t` and `unsigned long` values are natural
  numbers; every arithmetic result the C code stores in such a variable is
  reduced modulo `2^64` (`WORD`).
* `int` values (return codes, `format`, `need_unwind_info`) are integers.
* A pointer into the table is the index of the entry it points to; the null
  pointer is `none`.
* A run of C code ends in an `Exec`: it returns (`done`), fails its `assert`
  (`abort`), dereferences an invalid pointer (`fault`), or the bounded loop
  model runs out of steps (`timeout`, shown below never to happen).
-/

namespace TablesIa64

/-- Number of values of a 64-bit word. -/
def WORD : Nat := 2 ^ 64

/-- The C `struct ia64_table_entry`. -/
structure ia64_table_entry where
  start_offset : Nat
  end_offset : Nat
  info_offset : Nat
deriving DecidableEq, Repr

/-- How a run of C code ends. -/
inductive Exec (α : Type) where
  | done (a : α)
  | abort
  | fault
  | timeout
deriving DecidableEq, Repr

/-- The `for` loop of `lookup` (lines 33-43), started in the state `lo`, `hi`,
`e`; the result is the value of the pointer `e` when the loop is left.  The
first argument bounds the number of iterations.  `lo + hi` needs no reduction:
both stay at most `table_size / 24`, far below `2^63`. -/
def lookup_loop (table : List ia64_table_entry) (rel_ip : Nat) :
    Nat → Nat → Nat → Option Nat → Exec (Option Nat)
  | 0, lo, hi, e => if lo < hi then Exec.timeout else Exec.done e
  | fuel + 1, lo, hi, e =>
    if lo < hi then
      let mid := (lo + hi) / 2
      match table[mid]? with
      | none => Exec.fault
      | some ent =>
        if rel_ip < ent.start_offset then
          lookup_loop table rel_ip fuel lo mid (some mid)
        else if rel_ip ≥ ent.end_offset then
          lookup_loop table rel_ip fuel (mid + 1) hi (some mid)
        else
          Exec.done (some mid)
    else Exec.done e

/-- The C function `lookup` (lines 26-47).  `table` holds the entries stored at
the pointer `table`; `table_size` is the size in bytes.  The result is the
returned pointer: `none` for `NULL`, `some i` for `table + i`.  The test on
line 44 dereferences `e`, which is still the null pointer when the loop body
never ran. -/
def lookup (table : List ia64_table_entry) (table_size : Nat) (rel_ip : Nat) :
    Exec (Option Nat) :=
  match lookup_loop table rel_ip (table_size / 24) 0 (table_size / 24) none with
  | Exec.done none => Exec.fault
  | Exec.done (some i) =>
    match table[i]? with
    | none => Exec.fault
    | some ent =>
      if rel_ip < ent.start_offset ∨ rel_ip ≥ ent.end_offset then Exec.done none
      else Exec.done (some i)
  | Exec.abort => Exec.abort
  | Exec.fault => Exec.fault
  | Exec.timeout => Exec.timeout

/-- Constants of the library headers that `tables-ia64.c` uses but does not
define (`UNW_INFO_FORMAT_TABLE` and the `unw_error_t` codes); they are
parameters of the embedding. -/
structure Consts where
  UNW_INFO_FORMAT_TABLE : Int
  UNW_ENOMEM : Int
  UNW_EBADVERSION : Int
  UNW_ENOINFO : Int

/-- The header-word extraction macros of `unwind_i.h`, which the file uses but
does not define; they are parameters of the embedding.  The two flag macros are
only ever used as truth values, so they are boolean here. -/
structure HdrMacros where
  IA64_UNW_VER : Nat → Nat
  IA64_UNW_LENGTH : Nat → Nat
  IA64_UNW_FLAG_EHANDLER : Nat → Bool
  IA64_UNW_FLAG_UHANDLER : Nat → Bool

/-- The build configuration seen by `is_local_addr_space`: the two
preprocessor switches and the addresses of the two local address-space
objects. -/
structure Build where
  UNW_REMOTE_ONLY : Bool
  UNW_GENERIC_ONLY : Bool
  _Uia64_local_addr_space : Nat
  _ULia64_local_addr_space : Nat

/-- What the code uses of an address space `as`: its address (`self`), its
`big_endian` field and the `access_mem` accessor for a read (`write = 0`),
which yields the return code and the word stored through the value pointer. -/
structure unw_addr_space where
  self : Nat
  big_endian : Bool
  access_mem : Nat → Int × Nat

/-- The fields of `unw_dyn_info_t` the code uses (`u.ti` flattened);
`table_data` is the table stored at the pointer `u.ti.table_data`. -/
structure unw_dyn_info_t where
  format : Int
  start_ip : Nat
  end_ip : Nat
  gp : Nat
  name_ptr : Nat
  segbase : Nat
  table_len : Nat
  table_data : List ia64_table_entry

/-- Conversion of a 64-bit word to `int`, as done by an assignment to an `int`
field: the low 32 bits, read as a two's-complement number. -/
def word_to_int (x : Nat) : Int := (((x + 2 ^ 31) % 2 ^ 32 : Nat) : Int) - 2 ^ 31

/-- The fields of `unw_proc_info_t` the code mentions; `format` and
`unwind_info_size` are `int` fields, and `unwind_info` is a pointer value, `0`
being the null pointer. -/
structure unw_proc_info_t where
  start_ip : Nat
  end_ip : Nat
  lsda : Nat
  handler : Nat
  gp : Nat
  flags : Nat
  format : Int
  unwind_info_size : Int
  unwind_info : Nat
deriving DecidableEq, Repr

/-- The result of `memset (pi, 0, sizeof (*pi))`. -/
def pi_zero : unw_proc_info_t :=
  { start_ip := 0, end_ip := 0, lsda := 0, handler := 0, gp := 0, flags := 0,
    format := 0, unwind_info_size := 0, unwind_info := 0 }

/-- What a returned call of `_Uia64_search_unwind_table` has done: its return
value, the final `*pi`, the addresses read through `access_mem` (in order), the
non-null pointers obtained from `malloc`, the pointers passed to `free`, and
the words stored through `wp` into the allocated buffer (word `i` of the buffer
is `words[i]?`; a word never stored is indeterminate). -/
structure Run where
  ret : Int
  pi : unw_proc_info_t
  reads : List Nat
  mallocs : List Nat
  frees : List Nat
  words : List Nat
deriving DecidableEq, Repr

/-- The allocations of a run that are still live when it returns. -/
def Run.live (r : Run) : List Nat :=
  r.mallocs.filter (fun p => decide (p ∉ r.frees))

/-- The C function `is_local_addr_space` (lines 49-63). -/
def is_local_addr_space (b : Build) (as : unw_addr_space) : Bool :=
  if b.UNW_REMOTE_ONLY then false
  else
    (as.self == b._Uia64_local_addr_space
      || (!b.UNW_GENERIC_ONLY && as.self == b._ULia64_local_addr_space))

/-- The copy loop of lines 130-138, started at `addr` with the words stored so
far and the reads made so far.  The result is `some ret` when a read failed
with `ret < 0` (the loop is left through line 136) and `none` when the loop ran
to its end, together with the stored words and the reads.  The first argument
bounds the number of iterations. -/
def copy_loop (as : unw_addr_space) (info_end_addr : Nat) :
    Nat → Nat → List Nat → List Nat → Exec (Option Int × List Nat × List Nat)
  | 0, addr, words, reads =>
    if addr < info_end_addr then Exec.timeout else Exec.done (none, words, reads)
  | fuel + 1, addr, words, reads =>
    if addr < info_end_addr then
      let r := as.access_mem addr
      if r.1 < 0 then Exec.done (some r.1, words, reads ++ [addr])
      else copy_loop as info_end_addr fuel ((addr + 8) % WORD) (words ++ [r.2]) (reads ++ [addr])
    else Exec.done (none, words, reads)

/-- Lines 142-153 of `_Uia64_search_unwind_table`: the personality read and the
final assignments, entered with the current `*pi` and the effects so far. -/
def search_finish (m : HdrMacros) (as : unw_addr_space) (di : unw_dyn_info_t)
    (info_end_addr hdr : Nat) (pi : unw_proc_info_t)
    (reads mallocs words : List Nat) : Run :=
  if m.IA64_UNW_FLAG_EHANDLER hdr = true ∨ m.IA64_UNW_FLAG_UHANDLER hdr = true then
    let r := as.access_mem ((info_end_addr + 8) % WORD)
    if r.1 < 0 then
      { ret := r.1, pi := pi, reads := reads ++ [(info_end_addr + 8) % WORD],
        mallocs := mallocs, frees := [], words := words }
    else
      { ret := 0,
        pi := { pi with handler := (r.2 + di.gp) % WORD,
                        lsda := (info_end_addr + 16) % WORD,
                        gp := di.gp, format := di.format },
        reads := reads ++ [(info_end_addr + 8) % WORD],
        mallocs := mallocs, frees := [], words := words }
  else
    { ret := 0,
      pi := { pi with lsda := (info_end_addr + 16) % WORD,
                      gp := di.gp, format := di.format },
      reads := reads, mallocs := mallocs, frees := [], words := words }

/-- Lines 98-153 of `_Uia64_search_unwind_table`: the path taken once `lookup`
has returned the entry `e`.  `pi` is `*pi` after lines 79-81. -/
def search_found (c : Consts) (m : HdrMacros) (b : Build) (malloc : Nat → Nat)
    (as : unw_addr_space) (di : unw_dyn_info_t) (pi : unw_proc_info_t)
    (need_unwind_info : Int) (e : ia64_table_entry) : Exec Run :=
  let pi := { pi with start_ip := (e.start_offset + di.segbase) % WORD,
                      end_ip := (e.end_offset + di.segbase) % WORD }
  let hdr_addr := (e.info_offset + di.segbase) % WORD
  let info_addr := (hdr_addr + 8) % WORD
  let r := as.access_mem hdr_addr
  if r.1 < 0 then
    Exec.done { ret := r.1, pi := pi, reads := [hdr_addr], mallocs := [], frees := [],
                words := [] }
  else
    let hdr := r.2
    if m.IA64_UNW_VER hdr ≠ 1 then
      Exec.done { ret := -c.UNW_EBADVERSION, pi := pi, reads := [hdr_addr], mallocs := [],
                  frees := [], words := [] }
    else
      let info_end_addr := (info_addr + (8 * m.IA64_UNW_LENGTH hdr) % WORD) % WORD
      if need_unwind_info ≠ 0 then
        let pi := { pi with
          unwind_info_size := word_to_int ((8 * m.IA64_UNW_LENGTH hdr) % WORD) }
        if is_local_addr_space b as = true then
          Exec.done (search_finish m as di info_end_addr hdr
            { pi with unwind_info := info_addr } [hdr_addr] [] [])
        else
          let p := malloc ((8 * m.IA64_UNW_LENGTH hdr) % WORD)
          let pi := { pi with unwind_info := p }
          if p = 0 then
            Exec.done { ret := -c.UNW_ENOMEM, pi := pi, reads := [hdr_addr], mallocs := [],
                        frees := [], words := [] }
          else
            match copy_loop as info_end_addr ((8 * m.IA64_UNW_LENGTH hdr) % WORD / 8)
                info_addr [] [hdr_addr] with
            | Exec.done (some ret, words, reads) =>
              Exec.done { ret := ret, pi := pi, reads := reads, mallocs := [p],
                          frees := [p], words := words }
            | Exec.done (none, words, reads) =>
              Exec.done (search_finish m as di info_end_addr hdr pi reads [p] words)
            | Exec.abort => Exec.abort
            | Exec.fault => Exec.fault
            | Exec.timeout => Exec.timeout
      else
        Exec.done (search_finish m as di info_end_addr hdr pi [hdr_addr] [] [])

/-- The C function `_Uia64_search_unwind_table` (lines 65-154).  `malloc` maps a
requested size to the pointer the allocator returns (`0` when it fails); `pi`
is the content of `*pi` on entry. -/
def _Uia64_search_unwind_table (c : Consts) (m : HdrMacros) (b : Build) (malloc : Nat → Nat)
    (as : unw_addr_space) (ip : Nat) (di : unw_dyn_info_t) (pi : unw_proc_info_t)
    (need_unwind_info : Int) : Exec Run :=
  if ¬ (di.format = c.UNW_INFO_FORMAT_TABLE ∧ (ip ≥ di.start_ip ∧ ip < di.end_ip)) then
    Exec.abort
  else
    let pi := { pi with flags := 0, unwind_info := 0, handler := 0 }
    match lookup di.table_data ((di.table_len * 8) % WORD)
        ((ip + (WORD - di.segbase % WORD)) % WORD) with
    | Exec.abort => Exec.abort
    | Exec.fault => Exec.fault
    | Exec.timeout => Exec.timeout
    | Exec.done none =>
      Exec.done { ret := 0, pi := { pi_zero with start_ip := 0, end_ip := 0, gp := di.gp,
                                                 lsda := 0 },
                  reads := [], mallocs := [], frees := [], words := [] }
    | Exec.done (some i) =>
      match di.table_data[i]? with
      | none => Exec.fault
      | some e => search_found c m b malloc as di pi need_unwind_info e

/-- The C function `tdep_put_unwind_info` (lines 156-167): the final `*pi` and
the pointers passed to `free`. -/
def tdep_put_unwind_info (b : Build) (as : unw_addr_space) (pi : unw_proc_info_t) :
    unw_proc_info_t × List Nat :=
  if pi.unwind_info = 0 then (pi, [])
  else if ¬ (is_local_addr_space b as = true) then
    ({ pi with unwind_info := 0 }, [pi.unwind_info])
  else (pi, [])

/-- The IA-64 layout of the header word, as one instance of `HdrMacros` for
concrete runs: version in bits 48-63, the two handler flags in bits 32 and 33,
length in bits 0-31. -/
def ia64Hdr : HdrMacros :=
  { IA64_UNW_VER := fun x => x / 2 ^ 48
    IA64_UNW_LENGTH := fun x => x % 2 ^ 32
    IA64_UNW_FLAG_EHANDLER := fun x => decide (x / 2 ^ 32 % 2 = 1)
    IA64_UNW_FLAG_UHANDLER := fun x => decide (x / 2 ^ 33 % 2 = 1) }

/-- The numbering of the constants in the library headers, as one instance of
`Consts` for concrete runs. -/
def unwConsts : Consts :=
  { UNW_INFO_FORMAT_TABLE := 1, UNW_ENOMEM := 2, UNW_EBADVERSION := 9, UNW_ENOINFO := 10 }

/-- Table property: sorted ascending by `start_offset`. -/
def sorted_by_start (table : List ia64_table_entry) : Prop :=
  table.Pairwise (fun a b => a.start_offset ≤ b.start_offset)

/-- The ranges `[start_offset, end_offset)` of two entries have no address in
common. -/
def ranges_disjoint (a b : ia64_table_entry) : Prop :=
  ∀ x, ¬ ((a.start_offset ≤ x ∧ x < a.end_offset) ∧ (b.start_offset ≤ x ∧ x < b.end_offset))

/-- Table property: pairwise non-overlapping ranges. -/
def non_overlapping (table : List ia64_table_entry) : Prop :=
  table.Pairwise ranges_disjoint

/-- Table property: no entry with an empty range (`end_offset ≤ start_offset`)
has its `start_offset` inside the range of an earlier entry. -/
def no_empty_inside (table : List ia64_table_entry) : Prop :=
  table.Pairwise (fun a b =>
    ¬ (b.end_offset ≤ b.start_offset ∧ a.start_offset ≤ b.start_offset ∧
        b.start_offset < a.end_offset))

/-- The address `x` lies in the range of the entry `e`. -/
def covers (e : ia64_table_entry) (x : Nat) : Prop :=
  e.start_offset ≤ x ∧ x < e.end_offset

/-- The error codes are positive, so that a negated code differs from the
success value 0. -/
def error_codes_positive (c : Consts) : Prop :=
  0 < c.UNW_ENOMEM ∧ 0 < c.UNW_EBADVERSION ∧ 0 < c.UNW_ENOINFO

/-- The precondition asserted on lines 76-77. -/
def asserted (c : Consts) (ip : Nat) (di : unw_dyn_info_t) : Prop :=
  di.format = c.UNW_INFO_FORMAT_TABLE ∧ (ip ≥ di.start_ip ∧ ip < di.end_ip)

/-- The third argument of the call of `lookup` on lines 83-84:
`ip - di->u.ti.segbase` in 64-bit arithmetic. -/
def rel_ip_of (ip : Nat) (di : unw_dyn_info_t) : Nat :=
  (ip + (WORD - di.segbase % WORD)) % WORD

/-- The call of `lookup` on lines 83-84 returns the pointer to entry `i`, which
holds `e`. -/
def lookup_finds (ip : Nat) (di : unw_dyn_info_t) (i : Nat) (e : ia64_table_entry) : Prop :=
  lookup di.table_data ((di.table_len * 8) % WORD) (rel_ip_of ip di) = Exec.done (some i)
    ∧ di.table_data[i]? = some e

/-- Value of the variable `hdr_addr` (line 101). -/
def hdr_addr_of (di : unw_dyn_info_t) (e : ia64_table_entry) : Nat :=
  (e.info_offset + di.segbase) % WORD

/-- Value of the variable `info_addr` (line 102). -/
def info_addr_of (di : unw_dyn_info_t) (e : ia64_table_entry) : Nat :=
  (hdr_addr_of di e + 8) % WORD

/-- Value of `8 * IA64_UNW_LENGTH (hdr)` for the header word `hdr`. -/
def info_size (m : HdrMacros) (hdr : Nat) : Nat :=
  (8 * m.IA64_UNW_LENGTH hdr) % WORD

/-- Value of the variable `info_end_addr` (line 112) for the header word `hdr`. -/
def info_end_of (m : HdrMacros) (di : unw_dyn_info_t) (e : ia64_table_entry) (hdr : Nat) :
    Nat :=
  (info_addr_of di e + info_size m hdr) % WORD

/-- Content of `*pi` after lines 79-81. -/
def pi_reset (pi : unw_proc_info_t) : unw_proc_info_t :=
  { pi with flags := 0, unwind_info := 0, handler := 0 }

/-- Content of `*pi` after lines 98-99, from its content `pi` before them. -/
def pi_range (di : unw_dyn_info_t) (e : ia64_table_entry) (pi : unw_proc_info_t) :
    unw_proc_info_t :=
  { pi with start_ip := (e.start_offset + di.segbase) % WORD,
            end_ip := (e.end_offset + di.segbase) % WORD }

/-! ### Concrete inputs used for the witnesses -/

/-- A build with both local address spaces, at addresses 1 and 2. -/
def exBuild : Build :=
  { UNW_REMOTE_ONLY := false, UNW_GENERIC_ONLY := false,
    _Uia64_local_addr_space := 1, _ULia64_local_addr_space := 2 }

/-- The module of the specification's scenario: table `[{100,200,O1}]` with
`O1 = 0x400`, `segment_base = 0x10000`, `gp = 0x1000`. -/
def exDi : unw_dyn_info_t :=
  { format := 1, start_ip := 0x10000, end_ip := 0x20000, gp := 0x1000, name_ptr := 0,
    segbase := 0x10000, table_len := 3, table_data := [⟨100, 200, 0x400⟩] }

/-- Some content of `*pi` before the call. -/
def exPi : unw_proc_info_t :=
  { start_ip := 11, end_ip := 12, lsda := 13, handler := 14, gp := 15, flags := 16,
    format := 17, unwind_info_size := 18, unwind_info := 19 }

/-- An allocator that returns the block at `0x5000` for every request. -/
def exMalloc : Nat → Nat := fun _ => 0x5000

/-- Memory for `exDi` in which every read succeeds: the header at `0x10400`
is `hdr`, followed by the words `0x111`, `0x222`, `0x333`, `0x444`. -/
def exMem (hdr : Nat) : Nat → Int × Nat := fun a =>
  if a = 0x10400 then (0, hdr)
  else if a = 0x10408 then (0, 0x111)
  else if a = 0x10410 then (0, 0x222)
  else if a = 0x10418 then (0, 0x333)
  else if a = 0x10420 then (0, 0x444)
  else (0, 0)

/-- As `exMem`, but the read at address `bad` fails with the code `code`. -/
def exMemFail (hdr bad : Nat) (code : Int) : Nat → Int × Nat := fun a =>
  if a = bad then (code, 0) else exMem hdr a

/-- A remote address space (its address is neither 1 nor 2) over `mem`. -/
def exRemote (mem : Nat → Int × Nat) : unw_addr_space :=
  { self := 7, big_endian := false, access_mem := mem }

/-- The local address space `_Uia64_local_addr_space` of `exBuild` over `mem`. -/
def exLocal (mem : Nat → Int × Nat) : unw_addr_space :=
  { self := 1, big_endian := false, access_mem := mem }

/-- A module at `segment_base = 0` whose only entry `{100,200,off}` has its
header at address `off`. -/
def exDiAt (off : Nat) : unw_dyn_info_t :=
  { format := 1, start_ip := 0, end_ip := 0x1000, gp := 0x1000, name_ptr := 0,
    segbase := 0, table_len := 3, table_data := [⟨100, 200, off⟩] }

/-- Memory in which every read succeeds and yields the word `w`. -/
def exMemConst (w : Nat) : Nat → Int × Nat := fun _ => (0, w)

/-- Header word: version 1, no handler flag, length 1. -/
def exHdrPlain : Nat := 2 ^ 48 + 1

/-- Header word: version 1, exception-handler flag, length 1. -/
def exHdrEh : Nat := 2 ^ 48 + 2 ^ 32 + 1

/-- Header word: version 2, exception-handler flag, length 1. -/
def exHdrV2 : Nat := 2 * 2 ^ 48 + 2 ^ 32 + 1

/-! ### The dynamic-list scan -/

/-- Conversion of an `int` to `unw_word_t` (the value modulo `2^64`). -/
def int_to_word (x : Int) : Nat := (x % (WORD : Int)).toNat

/-- The cookie a little-endian address space must show (line 215). -/
def cookie_le : Nat := 0x7473696c2d6e7964

/-- The cookie a big-endian address space must show (line 216). -/
def cookie_be : Nat := 0x64796e2d6c697374

/-- The C function `_Uia64_find_dyn_list` (lines 169-221); the result is the
returned `unw_word_t`.  `table` holds the entries stored at the pointer
`table`.  The accessor being a function of the address, the order in which the
four reads of lines 208-211 are made does not matter. -/
def _Uia64_find_dyn_list (m : HdrMacros) (as : unw_addr_space)
    (table : List ia64_table_entry) (table_size segbase gp : Nat) : Exec Nat :=
  if table_size < 24 then Exec.done 0
  else
    match table[0]? with
    | none => Exec.fault
    | some tab0 =>
      if tab0.start_offset ≠ tab0.end_offset then Exec.done 0
      else
        let hdr_addr := (tab0.info_offset + segbase) % WORD
        let info_addr := (hdr_addr + 8) % WORD
        let r := as.access_mem hdr_addr
        if r.1 < 0 then Exec.done (int_to_word r.1)
        else
          let hdr := r.2
          if m.IA64_UNW_VER hdr ≠ 1 ∨ m.IA64_UNW_FLAG_EHANDLER hdr = true
              ∨ m.IA64_UNW_FLAG_UHANDLER hdr = true then
            Exec.done 0
          else if m.IA64_UNW_LENGTH hdr ≠ 1 then Exec.done 0
          else
            let directives := as.access_mem info_addr
            let pers := as.access_mem ((info_addr + 0x08) % WORD)
            let cookie := as.access_mem ((info_addr + 0x10) % WORD)
            let off := as.access_mem ((info_addr + 0x18) % WORD)
            if directives.1 < 0 ∨ pers.1 < 0 ∨ cookie.1 < 0 ∨ off.1 < 0 then Exec.done 0
            else if directives.2 ≠ 0 ∨ pers.2 ≠ 0
                ∨ (as.big_endian = false ∧ cookie.2 ≠ cookie_le)
                ∨ (as.big_endian = true ∧ cookie.2 ≠ cookie_be) then
              Exec.done 0
            else Exec.done ((off.2 + gp) % WORD)

/-- The accessor's answer for the word `k` bytes after the header of the entry
`tab0`, that is at `tab0.info_offset + segbase + k` in 64-bit arithmetic. -/
def dyn_read (as : unw_addr_space) (tab0 : ia64_table_entry) (segbase k : Nat) : Int × Nat :=
  as.access_mem (((tab0.info_offset + segbase) % WORD + k) % WORD)

/-- The conditions under which `_Uia64_find_dyn_list` accepts the first entry
`tab0` of a table, given the header word `hdr` and the four words that follow
it. -/
def dyn_list_valid (m : HdrMacros) (as : unw_addr_space) (table_size : Nat)
    (tab0 : ia64_table_entry) (hdr directives pers cookie : Nat) : Prop :=
  24 ≤ table_size ∧ tab0.start_offset = tab0.end_offset ∧ m.IA64_UNW_VER hdr = 1
    ∧ m.IA64_UNW_FLAG_EHANDLER hdr = false ∧ m.IA64_UNW_FLAG_UHANDLER hdr = false
    ∧ m.IA64_UNW_LENGTH hdr = 1 ∧ directives = 0 ∧ pers = 0
    ∧ cookie = (if as.big_endian = true then cookie_be else cookie_le)

/-- Memory of the specification's canary scenario: header `H0` at `0x100`
(version 1, length 1), directive word 0, personality word 0, the cookie `cookie`
and the offset `0x40`; every read succeeds. -/
def exDynMem (cookie : Nat) : Nat → Int × Nat := fun a =>
  if a = 0x100 then (0, 2 ^ 48 + 1)
  else if a = 0x118 then (0, cookie)
  else if a = 0x120 then (0, 0x40)
  else (0, 0)

/-- As `exDynMem`, but the read at address `bad` fails with the code `code`. -/
def exDynMemFail (cookie bad : Nat) (code : Int) : Nat → Int × Nat := fun a =>
  if a = bad then (code, 0) else exDynMem cookie a

/-! ### Module locator and kernel table (the `HAVE_DL_ITERATE_PHDR` build) -/

/-- Constants of the system's ELF headers that the file uses but does not
define: the segment types, the dynamic tags, and the least size of
`struct dl_phdr_info` the callback accepts
(`offsetof (struct dl_phdr_info, dlpi_phnum) + sizeof (info->dlpi_phnum)`).
They are parameters of the embedding. -/
structure ElfConsts where
  PT_LOAD : Nat
  PT_DYNAMIC : Nat
  PT_IA_64_UNWIND : Nat
  DT_NULL : Int
  DT_PLTGOT : Int
  MIN_INFO_SIZE : Nat

/-- The fields of `Elf64_Phdr` the code uses. -/
structure Elf64_Phdr where
  p_type : Nat
  p_vaddr : Nat
  p_memsz : Nat
deriving DecidableEq, Repr

/-- The fields of `Elf64_Dyn` the code uses (`d_un.d_ptr` as `d_ptr`). -/
structure Elf64_Dyn where
  d_tag : Int
  d_ptr : Nat
deriving DecidableEq, Repr

/-- The fields of `struct dl_phdr_info` the code uses; `dlpi_phdr` holds the
`dlpi_phnum` program headers. -/
structure dl_phdr_info where
  dlpi_addr : Nat
  dlpi_name : Nat
  dlpi_phdr : List Elf64_Phdr
deriving DecidableEq, Repr

/-- A `unw_dyn_info_t` as the locator and the kernel-table provider write it:
`table_data` is the pointer stored in `u.ti.table_data` (`0` for null), not the
table it points to. -/
structure dyn_info_raw where
  format : Int
  start_ip : Nat
  end_ip : Nat
  gp : Nat
  name_ptr : Nat
  segbase : Nat
  table_len : Nat
  table_data : Nat
deriving DecidableEq, Repr

/-- The pointers `p_text`, `p_unwind` and `p_dynamic` of `callback`; `none` is
the null pointer. -/
structure PhdrScan where
  p_text : Option Elf64_Phdr
  p_unwind : Option Elf64_Phdr
  p_dynamic : Option Elf64_Phdr
deriving DecidableEq, Repr

/-- The loop of lines 332-345 over the program headers still to visit; `ip` is
the value of `di->u.ti.segbase`. -/
def scan_phdrs (E : ElfConsts) (load_base ip : Nat) : List Elf64_Phdr → PhdrScan → PhdrScan
  | [], st => st
  | phdr :: rest, st =>
    if phdr.p_type = E.PT_LOAD then
      if ip ≥ (phdr.p_vaddr + load_base) % WORD
          ∧ ip < ((phdr.p_vaddr + load_base) % WORD + phdr.p_memsz) % WORD then
        scan_phdrs E load_base ip rest { st with p_text := some phdr }
      else scan_phdrs E load_base ip rest st
    else if phdr.p_type = E.PT_IA_64_UNWIND then
      scan_phdrs E load_base ip rest { st with p_unwind := some phdr }
    else if phdr.p_type = E.PT_DYNAMIC then
      scan_phdrs E load_base ip rest { st with p_dynamic := some phdr }
    else scan_phdrs E load_base ip rest st

/-- The loop of lines 354-360 over the dynamic section stored at `dyn`: the
`d_ptr` of the first `DT_PLTGOT` entry met before a `DT_NULL` entry, if any.
Running off the stored section is an invalid read. -/
def scan_dynamic (E : ElfConsts) : List Elf64_Dyn → Exec (Option Nat)
  | [] => Exec.fault
  | dyn :: rest =>
    if dyn.d_tag ≠ E.DT_NULL then
      if dyn.d_tag = E.DT_PLTGOT then Exec.done (some dyn.d_ptr)
      else scan_dynamic E rest
    else Exec.done none

/-- The C function `callback` (lines 309-378): return value and final `*di`.
`gp_reg` is the value of `current_gp ()` and `dyn_at a` the dynamic section
stored at address `a`. -/
def callback (c : Consts) (E : ElfConsts) (gp_reg : Nat) (dyn_at : Nat → List Elf64_Dyn)
    (info : dl_phdr_info) (size : Nat) (di : dyn_info_raw) : Exec (Int × dyn_info_raw) :=
  if size < E.MIN_INFO_SIZE then Exec.done (-1, di)
  else
    let st := scan_phdrs E info.dlpi_addr di.segbase info.dlpi_phdr
      { p_text := none, p_unwind := none, p_dynamic := none }
    match st.p_text, st.p_unwind with
    | some p_text, some p_unwind =>
      let fill (gp : Nat) : dyn_info_raw :=
        { format := c.UNW_INFO_FORMAT_TABLE,
          start_ip := (p_text.p_vaddr + info.dlpi_addr) % WORD,
          end_ip := (p_text.p_vaddr + info.dlpi_addr + p_text.p_memsz) % WORD,
          gp := gp,
          name_ptr := info.dlpi_name,
          segbase := (p_text.p_vaddr + info.dlpi_addr) % WORD,
          table_len := p_unwind.p_memsz / 8,
          table_data := (p_unwind.p_vaddr + info.dlpi_addr) % WORD }
      match st.p_dynamic with
      | some p_dynamic =>
        match scan_dynamic E (dyn_at ((p_dynamic.p_vaddr + info.dlpi_addr) % WORD)) with
        | Exec.done (some d_ptr) => Exec.done (1, fill d_ptr)
        | Exec.done none => Exec.done (1, fill di.gp)
        | Exec.abort => Exec.abort
        | Exec.fault => Exec.fault
        | Exec.timeout => Exec.timeout
      | none => Exec.done (1, fill gp_reg)
    | _, _ => Exec.done (0, di)

/-- The C library's `dl_iterate_phdr` over the loaded modules still to visit:
it calls `cb` on each module in turn until one call returns a non-zero value,
and returns the value of the last call (0 when there is no module). -/
def dl_iterate_phdr (cb : dl_phdr_info → Nat → dyn_info_raw → Exec (Int × dyn_info_raw))
    (size : Nat) : List dl_phdr_info → dyn_info_raw → Exec (Int × dyn_info_raw)
  | [], di => Exec.done (0, di)
  | info :: rest, di =>
    match cb info size di with
    | Exec.done (ret, di1) =>
      if ret ≠ 0 then Exec.done (ret, di1) else dl_iterate_phdr cb size rest di1
    | Exec.abort => Exec.abort
    | Exec.fault => Exec.fault
    | Exec.timeout => Exec.timeout

/-- What `_Uia64_get_kernel_table` gets from its environment: the size that
`getunwind (NULL, 0)` reports, the table that `getunwind (ktab, size)` stores
in the buffer, the allocator `sos_alloc` (`0` when it fails) and the address of
the string `"<kernel>"`. -/
structure Kernel where
  getunwind_size : Nat
  table : List ia64_table_entry
  sos_alloc : Nat → Nat
  name_ptr : Nat

/-- The entry `e` after `etab->info_offset += (uint64_t) ktab` (line 279). -/
def relocate (ktab : Nat) (e : ia64_table_entry) : ia64_table_entry :=
  { e with info_offset := (e.info_offset + ktab) % WORD }

/-- The loop of lines 278-279 over the buffer entries from `etab` on: the
relocated entries it has passed, and the entries from the final `etab` on.
Running off the buffer is an invalid read. -/
def reloc_loop (ktab : Nat) : List ia64_table_entry →
    Exec (List ia64_table_entry × List ia64_table_entry)
  | [] => Exec.fault
  | etab :: rest =>
    if etab.start_offset ≠ 0 then
      match reloc_loop ktab rest with
      | Exec.done (passed, rem) => Exec.done (relocate ktab etab :: passed, rem)
      | Exec.abort => Exec.abort
      | Exec.fault => Exec.fault
      | Exec.timeout => Exec.timeout
    else Exec.done ([], etab :: rest)

/-- The C function `_Uia64_get_kernel_table` (lines 259-294): return value,
final `*di` and the content of the buffer it allocated (empty when it
allocated none).  `ktab[0]` is the first entry of the buffer and `etab[-1]` the
last entry the loop has passed; the table length is the byte distance
`24 * passed.length` divided by 8. -/
def _Uia64_get_kernel_table (c : Consts) (k : Kernel) (di : dyn_info_raw) :
    Exec (Int × dyn_info_raw × List ia64_table_entry) :=
  let size := k.getunwind_size
  let ktab := k.sos_alloc size
  if ktab = 0 then Exec.done (-c.UNW_ENOMEM, di, [])
  else
    match reloc_loop ktab k.table with
    | Exec.done (passed, rem) =>
      match (passed ++ rem)[0]?, passed.getLast? with
      | some first, some last =>
        Exec.done (0,
          { format := c.UNW_INFO_FORMAT_TABLE, gp := 0, start_ip := first.start_offset,
            end_ip := last.end_offset, name_ptr := k.name_ptr, segbase := 0,
            table_len := 24 * passed.length / 8, table_data := ktab },
          passed ++ rem)
      | _, _ => Exec.fault
    | Exec.abort => Exec.abort
    | Exec.fault => Exec.fault
    | Exec.timeout => Exec.timeout

/-- The static `kernel_table` (line 257) together with the content of the
buffer its `table_data` points to. -/
structure KernelCache where
  kernel_table : dyn_info_raw
  buffer : List ia64_table_entry
deriving DecidableEq, Repr

/-- How `tdep_find_proc_info` ends: it returns `code` without searching, or it
ends in the call `tdep_search_unwind_table (as, ip, dip, ...)` of line 438. -/
inductive FindOutcome where
  | ret (code : Int)
  | search (dip : dyn_info_raw)
deriving DecidableEq, Repr

/-- What a call of `tdep_find_proc_info` has done: how it ended, the static
kernel table afterwards, and the number of calls of `_Uia64_get_kernel_table`
it made. -/
structure FindRun where
  outcome : FindOutcome
  cache : KernelCache
  retrievals : Nat
deriving DecidableEq, Repr

/-- The C function `tdep_find_proc_info` (lines 385-439) up to the call on line
438.  `modules` are the loaded modules `dl_iterate_phdr` visits, `size` the
size it passes to the callback, `di0` the content of the local `di` on entry
and `cache` the static kernel table. -/
def tdep_find_proc_info (c : Consts) (E : ElfConsts) (gp_reg : Nat)
    (dyn_at : Nat → List Elf64_Dyn) (modules : List dl_phdr_info) (size : Nat) (k : Kernel)
    (cache : KernelCache) (ip : Nat) (di0 : dyn_info_raw) : Exec FindRun :=
  match dl_iterate_phdr (callback c E gp_reg dyn_at) size modules { di0 with segbase := ip } with
  | Exec.done (found, di) =>
    if found ≤ 0 then
      if cache.kernel_table.table_data = 0 then
        match _Uia64_get_kernel_table c k cache.kernel_table with
        | Exec.done (ret, kt, buf) =>
          if ret < 0 then
            Exec.done { outcome := FindOutcome.ret ret,
                        cache := { kernel_table := kt, buffer := cache.buffer },
                        retrievals := 1 }
          else if ip < kt.start_ip ∨ ip ≥ kt.end_ip then
            Exec.done { outcome := FindOutcome.ret (-c.UNW_ENOINFO),
                        cache := { kernel_table := kt, buffer := buf }, retrievals := 1 }
          else
            Exec.done { outcome := FindOutcome.search kt,
                        cache := { kernel_table := kt, buffer := buf }, retrievals := 1 }
        | Exec.abort => Exec.abort
        | Exec.fault => Exec.fault
        | Exec.timeout => Exec.timeout
      else if ip < cache.kernel_table.start_ip ∨ ip ≥ cache.kernel_table.end_ip then
        Exec.done { outcome := FindOutcome.ret (-c.UNW_ENOINFO), cache := cache,
                    retrievals := 0 }
      else
        Exec.done { outcome := FindOutcome.search cache.kernel_table, cache := cache,
                    retrievals := 0 }
    else Exec.done { outcome := FindOutcome.search di, cache := cache, retrievals := 0 }
  | Exec.abort => Exec.abort
  | Exec.fault => Exec.fault
  | Exec.timeout => Exec.timeout

/-- The numbering of the ELF constants on IA-64 Linux, as one instance of
`ElfConsts` for concrete runs. -/
def elfConsts : ElfConsts :=
  { PT_LOAD := 1, PT_DYNAMIC := 2, PT_IA_64_UNWIND := 0x70000001, DT_NULL := 0,
    DT_PLTGOT := 3, MIN_INFO_SIZE := 26 }

/-- The program header `p` is a `PT_LOAD` segment whose range, in 64-bit
arithmetic, contains `ip`. -/
def is_text (E : ElfConsts) (load_base ip : Nat) (p : Elf64_Phdr) : Prop :=
  p.p_type = E.PT_LOAD ∧ (p.p_vaddr + load_base) % WORD ≤ ip
    ∧ ip < ((p.p_vaddr + load_base) % WORD + p.p_memsz) % WORD

/-- The dynamic section `l` holds a `DT_NULL` or a `DT_PLTGOT` entry, at which
the loop of lines 354-360 stops. -/
def dyn_terminated (E : ElfConsts) (l : List Elf64_Dyn) : Prop :=
  ∃ d, d ∈ l ∧ (d.d_tag = E.DT_NULL ∨ d.d_tag = E.DT_PLTGOT)

/-- A module loaded at `0x10000` with a text segment `[0x14000, 0x16000)`, an
unwind segment of `0x30` bytes at `0x18000` and no dynamic segment. -/
def exModule : dl_phdr_info :=
  { dlpi_addr := 0x10000, dlpi_name := 0x77,
    dlpi_phdr := [⟨1, 0x4000, 0x2000⟩, ⟨0x70000001, 0x8000, 0x30⟩] }

/-- Some content of the local `di` of `tdep_find_proc_info` with
`u.ti.segbase = ip`. -/
def exRaw (ip : Nat) : dyn_info_raw :=
  { format := 21, start_ip := 22, end_ip := 23, gp := 24, name_ptr := 25, segbase := ip,
    table_len := 26, table_data := 27 }

/-- The static `kernel_table` before its first use: all zero. -/
def exCacheEmpty : KernelCache :=
  { kernel_table := { format := 0, start_ip := 0, end_ip := 0, gp := 0, name_ptr := 0,
                      segbase := 0, table_len := 0, table_data := 0 },
    buffer := [] }

/-- A kernel whose unwind table is `table` and for which `sos_alloc` returns
`ptr`. -/
def exKernel (table : List ia64_table_entry) (ptr : Nat) : Kernel :=
  { getunwind_size := 24 * table.length, table := table, sos_alloc := fun _ => ptr,
    name_ptr := 0x88 }

/-! ## Theorems -/

/-- Two ranges are disjoint exactly when the smaller end is at most the larger
start. -/
theorem ranges_disjoint_iff (a b : ia64_table_entry) :
    ranges_disjoint a b ↔
      min a.end_offset b.end_offset ≤ max a.start_offset b.start_offset := by
  unfold ranges_disjoint
  constructor
  · intro h
    by_contra hlt
    exact h (max a.start_offset b.start_offset) (by omega)
  · intro h x hx
    omega

instance ranges_disjoint_decidable : DecidableRel ranges_disjoint :=
  fun a b => decidable_of_iff _ (ranges_disjoint_iff a b).symm

theorem pairwise_at {R : ia64_table_entry → ia64_table_entry → Prop}
    {table : List ia64_table_entry} (h : table.Pairwise R) {i j : Nat}
    {a b : ia64_table_entry} (hij : i < j) (ha : table[i]? = some a)
    (hb : table[j]? = some b) : R a b := by
  obtain ⟨hi, rfl⟩ := List.getElem?_eq_some.mp ha
  obtain ⟨hj, rfl⟩ := List.getElem?_eq_some.mp hb
  exact List.pairwise_iff_getElem.mp h i j hi hj hij

/-- Entries that are sorted, non-overlapping and without an empty range inside
an earlier range are ordered: an earlier entry ends where a later one starts, or
before. -/
theorem ordered_of_sorted {table : List ia64_table_entry}
    (hs : sorted_by_start table) (hd : non_overlapping table)
    (hz : no_empty_inside table) {i j : Nat} {a b : ia64_table_entry} (hij : i < j)
    (ha : table[i]? = some a) (hb : table[j]? = some b) :
    a.start_offset ≤ b.start_offset ∧ a.end_offset ≤ b.start_offset := by
  have h1 : a.start_offset ≤ b.start_offset := pairwise_at hs hij ha hb
  have h2 : ranges_disjoint a b := pairwise_at hd hij ha hb
  have h3 := pairwise_at hz hij ha hb
  refine ⟨h1, ?_⟩
  by_contra hlt
  have hlt2 : b.start_offset < a.end_offset := by omega
  by_cases hemp : b.end_offset ≤ b.start_offset
  · exact h3 ⟨hemp, h1, hlt2⟩
  · exact h2 b.start_offset ⟨⟨h1, hlt2⟩, ⟨le_refl _, by omega⟩⟩

/-- The loop of `lookup` always ends within `hi - lo` iterations on a table
that has `hi` entries: it leaves `e` untouched when it does not iterate, and
otherwise leaves it pointing at an entry between the initial `lo` and `hi`. -/
theorem lookup_loop_done (table : List ia64_table_entry) (rel_ip : Nat) :
    ∀ (fuel lo hi : Nat) (e : Option Nat), hi - lo ≤ fuel → hi ≤ table.length →
      ∃ r, lookup_loop table rel_ip fuel lo hi e = Exec.done r ∧
        ((hi ≤ lo ∧ r = e) ∨ (lo < hi ∧ ∃ m, r = some m ∧ lo ≤ m ∧ m < hi)) := by
  intro fuel
  induction fuel with
  | zero =>
    intro lo hi e hf _
    have hle : ¬ lo < hi := by omega
    exact ⟨e, by simp [lookup_loop, hle], Or.inl ⟨by omega, rfl⟩⟩
  | succ n ih =>
    intro lo hi e hf hlen
    by_cases hlt : lo < hi
    · have hmid : (lo + hi) / 2 < table.length := by omega
      have hget : table[(lo + hi) / 2]? = some table[(lo + hi) / 2] :=
        List.getElem?_eq_getElem hmid
      simp only [lookup_loop, if_pos hlt, hget]
      by_cases h1 : rel_ip < table[(lo + hi) / 2].start_offset
      · simp only [if_pos h1]
        obtain ⟨r, hr, hcase⟩ := ih lo ((lo + hi) / 2) (some ((lo + hi) / 2))
          (by omega) (by omega)
        refine ⟨r, hr, Or.inr ⟨hlt, ?_⟩⟩
        rcases hcase with ⟨_, hre⟩ | ⟨_, m, hm, h2, h3⟩
        · exact ⟨(lo + hi) / 2, hre, by omega, by omega⟩
        · exact ⟨m, hm, h2, by omega⟩
      · simp only [if_neg h1]
        by_cases h2 : rel_ip ≥ table[(lo + hi) / 2].end_offset
        · simp only [if_pos h2]
          obtain ⟨r, hr, hcase⟩ := ih ((lo + hi) / 2 + 1) hi (some ((lo + hi) / 2))
            (by omega) hlen
          refine ⟨r, hr, Or.inr ⟨hlt, ?_⟩⟩
          rcases hcase with ⟨_, hre⟩ | ⟨_, m, hm, h3, h4⟩
          · exact ⟨(lo + hi) / 2, hre, by omega, by omega⟩
          · exact ⟨m, hm, by omega, h4⟩
        · simp only [if_neg h2]
          exact ⟨some ((lo + hi) / 2), rfl, Or.inr ⟨hlt, _, rfl, by omega, by omega⟩⟩
    · exact ⟨e, by simp [lookup_loop, hlt], Or.inl ⟨by omega, rfl⟩⟩

/-- On an ordered table the loop of `lookup` stops at the entry `k` that covers
`rel_ip`, whenever `k` lies between `lo` and `hi`. -/
theorem lookup_loop_finds (table : List ia64_table_entry) (rel_ip k : Nat)
    (ek : ia64_table_entry) (hk : table[k]? = some ek) (hcov : covers ek rel_ip)
    (hord : ∀ (i j : Nat) (a b : ia64_table_entry), i < j → table[i]? = some a →
      table[j]? = some b → a.start_offset ≤ b.start_offset ∧ a.end_offset ≤ b.start_offset) :
    ∀ (fuel lo hi : Nat) (e : Option Nat), hi - lo ≤ fuel → hi ≤ table.length →
      lo ≤ k → k < hi → lookup_loop table rel_ip fuel lo hi e = Exec.done (some k) := by
  intro fuel
  induction fuel with
  | zero => intro lo hi e hf _ h1 h2; omega
  | succ n ih =>
    intro lo hi e hf hlen hlo hhi
    have hlt : lo < hi := by omega
    have hmid : (lo + hi) / 2 < table.length := by omega
    have hget : table[(lo + hi) / 2]? = some table[(lo + hi) / 2] :=
      List.getElem?_eq_getElem hmid
    simp only [lookup_loop, if_pos hlt, hget]
    obtain ⟨hc1, hc2⟩ := hcov
    rcases Nat.lt_trichotomy ((lo + hi) / 2) k with hmk | hmk | hmk
    · have ho := hord _ _ _ _ hmk hget hk
      rw [if_neg (by omega), if_pos (by omega)]
      exact ih _ _ _ (by omega) hlen (by omega) hhi
    · have hek : table[(lo + hi) / 2] = ek := by
        have hk2 : table[(lo + hi) / 2]? = some ek := by rw [hmk]; exact hk
        exact Option.some.inj (hget.symm.trans hk2)
      rw [hek, if_neg (by omega), if_neg (by omega), hmk]
    · have ho := hord _ _ _ _ hmk hk hget
      rw [if_pos (by omega)]
      exact ih _ _ _ (by omega) (by omega) hlo (by omega)


/-- The final test of `lookup` (lines 44-46) after a loop that left `e` at a
valid entry. -/
theorem lookup_of_loop {table : List ia64_table_entry} {table_size rel_ip m : Nat}
    {ent : ia64_table_entry}
    (hloop : lookup_loop table rel_ip (table_size / 24) 0 (table_size / 24) none
      = Exec.done (some m))
    (hm : table[m]? = some ent) :
    lookup table table_size rel_ip =
      if rel_ip < ent.start_offset ∨ rel_ip ≥ ent.end_offset then Exec.done none
      else Exec.done (some m) := by
  simp only [lookup, hloop, hm]

/-- C1, as amended.  On a table of `table_size / 24` entries that is sorted
ascending by `start_offset`, has pairwise non-overlapping ranges and has no
empty-range entry starting inside the range of an earlier entry, `lookup`
returns the pointer to the entry `table[i]` whenever that entry covers
`rel_ip`. -/
theorem lookup_returns_covering_entry (table : List ia64_table_entry)
    (table_size rel_ip i : Nat) (e : ia64_table_entry)
    (hsize : table_size / 24 = table.length)
    (hs : sorted_by_start table) (hd : non_overlapping table) (hz : no_empty_inside table)
    (hi : table[i]? = some e) (hcov : covers e rel_ip) :
    lookup table table_size rel_ip = Exec.done (some i) := by
  have hilt : i < table.length := (List.getElem?_eq_some.mp hi).1
  have hloop := lookup_loop_finds table rel_ip i e hi hcov
    (fun _ _ _ _ hij ha hb => ordered_of_sorted hs hd hz hij ha hb)
    (table_size / 24) 0 (table_size / 24) none (by omega) (by omega) (Nat.zero_le _)
    (by omega)
  rw [lookup_of_loop hloop hi, if_neg]
  unfold covers at hcov
  omega

/-- Witness for C1: the one-entry table `[{100,200,O1}]` of the specification,
queried at 150. -/
theorem lookup_returns_covering_entry_witness :
    lookup [⟨100, 200, 7⟩] 24 150 = Exec.done (some 0) :=
  lookup_returns_covering_entry [⟨100, 200, 7⟩] 24 150 0 ⟨100, 200, 7⟩ (by decide)
    (by simp [sorted_by_start]) (by simp [non_overlapping])
    (by simp [no_empty_inside]) (by decide) (by simp [covers])

/-- Counterexample to C1 as stated.  The table `{0,100}, {50,50}, {100,200}` is
sorted by `start_offset` and its ranges are pairwise non-overlapping (the
zero-length entry has an empty range); the address 70 lies in the range of
entry 0, yet `lookup` returns `NULL`. -/
theorem lookup_zero_length_inside_counterexample :
    (72 / 24 = [(⟨0, 100, 1⟩ : ia64_table_entry), ⟨50, 50, 2⟩, ⟨100, 200, 3⟩].length)
    ∧ sorted_by_start [⟨0, 100, 1⟩, ⟨50, 50, 2⟩, ⟨100, 200, 3⟩]
    ∧ non_overlapping [⟨0, 100, 1⟩, ⟨50, 50, 2⟩, ⟨100, 200, 3⟩]
    ∧ [(⟨0, 100, 1⟩ : ia64_table_entry), ⟨50, 50, 2⟩, ⟨100, 200, 3⟩][0]? = some ⟨0, 100, 1⟩
    ∧ covers ⟨0, 100, 1⟩ 70
    ∧ lookup [⟨0, 100, 1⟩, ⟨50, 50, 2⟩, ⟨100, 200, 3⟩] 72 70 = Exec.done none
    ∧ lookup [⟨0, 100, 1⟩, ⟨50, 50, 2⟩, ⟨100, 200, 3⟩] 72 70 ≠ Exec.done (some 0) := by
  refine ⟨by decide, by simp [sorted_by_start], ?_, by decide, by simp [covers],
    by decide, by decide⟩
  unfold non_overlapping
  decide

/-- C2.  On a table of `table_size / 24 ≥ 1` entries (sorted and non-overlapping
or not), `lookup` returns `NULL` for every `rel_ip` that no entry of the table
covers. -/
theorem lookup_returns_null_outside_ranges (table : List ia64_table_entry)
    (table_size rel_ip : Nat)
    (hsize : table_size / 24 = table.length) (hne : 1 ≤ table.length)
    (hout : ∀ e, e ∈ table → ¬ covers e rel_ip) :
    lookup table table_size rel_ip = Exec.done none := by
  obtain ⟨r, hr, hcase⟩ := lookup_loop_done table rel_ip (table_size / 24) 0
    (table_size / 24) none (by omega) (by omega)
  rcases hcase with ⟨h0, _⟩ | ⟨_, m, rfl, _, hm⟩
  · omega
  · have hmlt : m < table.length := by omega
    have hget : table[m]? = some table[m] := List.getElem?_eq_getElem hmlt
    rw [lookup_of_loop hr hget, if_pos]
    have := hout table[m] (List.getElem_mem hmlt)
    unfold covers at this
    omega

/-- Witness for C2: the one-entry table `[{100,200,O1}]` of the specification,
queried at 250. -/
theorem lookup_returns_null_outside_ranges_witness :
    lookup [⟨100, 200, 7⟩] 24 250 = Exec.done none :=
  lookup_returns_null_outside_ranges [⟨100, 200, 7⟩] 24 250 (by decide) (by decide)
    (by simp [covers])

/-! ### The copy loop -/

theorem WORD_eq : WORD = 18446744073709551616 := by norm_num [WORD]

/-- The copy loop does not iterate when `addr` is not below `info_end_addr`. -/
theorem copy_loop_skip (as : unw_addr_space) (info_end_addr fuel addr : Nat)
    (ws rs : List Nat) (h : info_end_addr ≤ addr) :
    copy_loop as info_end_addr fuel addr ws rs = Exec.done (none, ws, rs) := by
  have hn : ¬ addr < info_end_addr := by omega
  cases fuel <;> simp [copy_loop, hn]

/-- The copy loop started `k` words below `info_end_addr` ends within `k`
iterations: either some read failed and its negative code is handed back, or
all `k` reads succeeded and the `k` words read were stored in order. -/
theorem copy_loop_spec (as : unw_addr_space) (info_end_addr : Nat)
    (hie : info_end_addr < WORD) :
    ∀ (fuel k addr : Nat) (ws rs : List Nat), addr + 8 * k = info_end_addr → k ≤ fuel →
      (∃ ret ws1 rs1, copy_loop as info_end_addr fuel addr ws rs
          = Exec.done (some ret, ws1, rs1) ∧ ret < 0 ∧
          ∃ j, j < k ∧ ret = (as.access_mem (addr + 8 * j)).1)
      ∨ (copy_loop as info_end_addr fuel addr ws rs
          = Exec.done (none,
              ws ++ (List.range k).map (fun j => (as.access_mem (addr + 8 * j)).2),
              rs ++ (List.range k).map (fun j => addr + 8 * j))
          ∧ ∀ j, j < k → 0 ≤ (as.access_mem (addr + 8 * j)).1) := by
  intro fuel
  induction fuel with
  | zero =>
    intro k addr ws rs hk hf
    have hk0 : k = 0 := by omega
    subst hk0
    right
    refine ⟨?_, fun j hj => absurd hj (Nat.not_lt_zero j)⟩
    rw [copy_loop_skip as info_end_addr 0 addr ws rs (by omega)]
    simp
  | succ n ih =>
    intro k addr ws rs hk hf
    cases k with
    | zero =>
      right
      refine ⟨?_, fun j hj => absurd hj (Nat.not_lt_zero j)⟩
      rw [copy_loop_skip as info_end_addr (n + 1) addr ws rs (by omega)]
      simp
    | succ k =>
      have hlt : addr < info_end_addr := by omega
      have hmod : (addr + 8) % WORD = addr + 8 := by
        rw [WORD_eq] at hie ⊢
        omega
      by_cases hr : (as.access_mem addr).1 < 0
      · left
        refine ⟨(as.access_mem addr).1, ws, rs ++ [addr], ?_, hr, 0, Nat.succ_pos k, ?_⟩
        · simp [copy_loop, hlt, hr]
        · simp
      · have hstep : copy_loop as info_end_addr (n + 1) addr ws rs
            = copy_loop as info_end_addr n (addr + 8) (ws ++ [(as.access_mem addr).2])
                (rs ++ [addr]) := by
          simp [copy_loop, hlt, hr, hmod]
        rcases ih k (addr + 8) (ws ++ [(as.access_mem addr).2]) (rs ++ [addr])
          (by omega) (by omega) with ⟨ret, ws1, rs1, hrun, hneg, j, hj, hjneg⟩ | ⟨hrun, hall⟩
        · left
          refine ⟨ret, ws1, rs1, hstep.trans hrun, hneg, j + 1, by omega, ?_⟩
          have : addr + 8 * (j + 1) = addr + 8 + 8 * j := by ring
          rw [this]; exact hjneg
        · right
          constructor
          · rw [hstep, hrun, List.range_succ_eq_map, List.map_cons, List.map_cons,
              List.map_map, List.map_map]
            have e1 : ∀ j, addr + 8 + 8 * j = addr + 8 * (j + 1) := fun j => by ring
            simp [Function.comp_def, e1]
          · intro j hj
            cases j with
            | zero => simpa using Int.not_lt.mp hr
            | succ j =>
              have := hall j (by omega)
              have e1 : addr + 8 * (j + 1) = addr + 8 + 8 * j := by ring
              rw [e1]; exact this

/-- The copy loop as `_Uia64_search_unwind_table` calls it (buffer of `S` bytes
at `info_addr`) always ends: with a negative code, or having stored every word
it read; when `info_addr + S` does not wrap, these are the `S / 8` words from
`info_addr` on. -/
theorem copy_loop_call (as : unw_addr_space) (info_addr S : Nat) (rs : List Nat)
    (hia : info_addr < WORD) (hS : S < WORD) (h8 : S % 8 = 0) :
    (∃ ret ws1 rs1, copy_loop as ((info_addr + S) % WORD) (S / 8) info_addr [] rs
        = Exec.done (some ret, ws1, rs1) ∧ ret < 0 ∧
        ∃ a, info_addr ≤ a ∧ a < (info_addr + S) % WORD ∧ ret = (as.access_mem a).1)
    ∨ (∃ ws1 rs1, copy_loop as ((info_addr + S) % WORD) (S / 8) info_addr [] rs
        = Exec.done (none, ws1, rs1) ∧
        (info_addr + S < WORD →
          ws1 = (List.range (S / 8)).map (fun j => (as.access_mem (info_addr + 8 * j)).2))) := by
  by_cases hw : info_addr + S < WORD
  · have hmod : (info_addr + S) % WORD = info_addr + S := Nat.mod_eq_of_lt hw
    rw [hmod]
    rcases copy_loop_spec as (info_addr + S) hw (S / 8) (S / 8) info_addr [] rs
      (by omega) (le_refl _) with ⟨ret, ws1, rs1, hrun, hneg, j, hjlt, hj⟩ | ⟨hrun, _⟩
    · exact Or.inl ⟨ret, ws1, rs1, hrun, hneg, _, by omega, by omega, hj⟩
    · exact Or.inr ⟨_, _, hrun, fun _ => by simp⟩
  · right
    refine ⟨[], rs, ?_, fun h => absurd h hw⟩
    apply copy_loop_skip
    rw [WORD_eq] at hia hS hw ⊢
    omega

/-! ### The decoder -/

/-- Once the assertion holds and `lookup` has found the entry `e`, the call
continues on line 98. -/
theorem search_of_found (c : Consts) (m : HdrMacros) (b : Build) (malloc : Nat → Nat)
    (as : unw_addr_space) (ip : Nat) (di : unw_dyn_info_t) (pi : unw_proc_info_t)
    (need_unwind_info : Int) (i : Nat) (e : ia64_table_entry)
    (ha : asserted c ip di) (hf : lookup_finds ip di i e) :
    _Uia64_search_unwind_table c m b malloc as ip di pi need_unwind_info
      = search_found c m b malloc as di (pi_reset pi) need_unwind_info e := by
  unfold asserted at ha
  obtain ⟨hl, hg⟩ := hf
  unfold rel_ip_of at hl
  simp only [_Uia64_search_unwind_table, ha, and_self, not_true_eq_false, if_false, hl, hg,
    pi_reset]

/-- The seven ways through lines 98-153. -/
theorem search_found_cases (c : Consts) (m : HdrMacros) (b : Build) (malloc : Nat → Nat)
    (as : unw_addr_space) (di : unw_dyn_info_t) (pi : unw_proc_info_t)
    (need_unwind_info : Int) (e : ia64_table_entry) (hdr : Nat)
    (hhdr : hdr = (as.access_mem (hdr_addr_of di e)).2) :
    ((as.access_mem (hdr_addr_of di e)).1 < 0 ∧
      search_found c m b malloc as di pi need_unwind_info e
        = Exec.done { ret := (as.access_mem (hdr_addr_of di e)).1, pi := pi_range di e pi,
                      reads := [hdr_addr_of di e], mallocs := [], frees := [], words := [] })
    ∨ (0 ≤ (as.access_mem (hdr_addr_of di e)).1 ∧ m.IA64_UNW_VER hdr ≠ 1 ∧
      search_found c m b malloc as di pi need_unwind_info e
        = Exec.done { ret := -c.UNW_EBADVERSION, pi := pi_range di e pi,
                      reads := [hdr_addr_of di e], mallocs := [], frees := [], words := [] })
    ∨ (0 ≤ (as.access_mem (hdr_addr_of di e)).1 ∧ m.IA64_UNW_VER hdr = 1 ∧
      need_unwind_info = 0 ∧
      search_found c m b malloc as di pi need_unwind_info e
        = Exec.done (search_finish m as di (info_end_of m di e hdr) hdr (pi_range di e pi)
            [hdr_addr_of di e] [] []))
    ∨ (0 ≤ (as.access_mem (hdr_addr_of di e)).1 ∧ m.IA64_UNW_VER hdr = 1 ∧
      need_unwind_info ≠ 0 ∧ is_local_addr_space b as = true ∧
      search_found c m b malloc as di pi need_unwind_info e
        = Exec.done (search_finish m as di (info_end_of m di e hdr) hdr
            { pi_range di e pi with unwind_info_size := word_to_int (info_size m hdr),
                                    unwind_info := info_addr_of di e }
            [hdr_addr_of di e] [] []))
    ∨ (0 ≤ (as.access_mem (hdr_addr_of di e)).1 ∧ m.IA64_UNW_VER hdr = 1 ∧
      need_unwind_info ≠ 0 ∧ is_local_addr_space b as = false ∧
      malloc (info_size m hdr) = 0 ∧
      search_found c m b malloc as di pi need_unwind_info e
        = Exec.done { ret := -c.UNW_ENOMEM,
                      pi := { pi_range di e pi with unwind_info_size := word_to_int (info_size m hdr),
                                                    unwind_info := 0 },
                      reads := [hdr_addr_of di e], mallocs := [], frees := [], words := [] })
    ∨ (0 ≤ (as.access_mem (hdr_addr_of di e)).1 ∧ m.IA64_UNW_VER hdr = 1 ∧
      need_unwind_info ≠ 0 ∧ is_local_addr_space b as = false ∧
      malloc (info_size m hdr) ≠ 0 ∧
      ∃ ret ws rs, ret < 0 ∧
        (∃ a, info_addr_of di e ≤ a ∧ a < info_end_of m di e hdr ∧
          ret = (as.access_mem a).1) ∧
        search_found c m b malloc as di pi need_unwind_info e
          = Exec.done { ret := ret,
                        pi := { pi_range di e pi with
                                  unwind_info_size := word_to_int (info_size m hdr),
                                  unwind_info := malloc (info_size m hdr) },
                        reads := rs, mallocs := [malloc (info_size m hdr)],
                        frees := [malloc (info_size m hdr)], words := ws })
    ∨ (0 ≤ (as.access_mem (hdr_addr_of di e)).1 ∧ m.IA64_UNW_VER hdr = 1 ∧
      need_unwind_info ≠ 0 ∧ is_local_addr_space b as = false ∧
      malloc (info_size m hdr) ≠ 0 ∧
      ∃ ws rs,
        (info_addr_of di e + info_size m hdr < WORD →
          ws = (List.range (info_size m hdr / 8)).map
            (fun j => (as.access_mem (info_addr_of di e + 8 * j)).2)) ∧
        search_found c m b malloc as di pi need_unwind_info e
          = Exec.done (search_finish m as di (info_end_of m di e hdr) hdr
              { pi_range di e pi with unwind_info_size := word_to_int (info_size m hdr),
                                      unwind_info := malloc (info_size m hdr) }
              rs [malloc (info_size m hdr)] ws)) := by
  subst hhdr
  by_cases h0 : (as.access_mem (hdr_addr_of di e)).1 < 0
  · left
    refine ⟨h0, ?_⟩
    simp only [search_found, hdr_addr_of, pi_range] at h0 ⊢
    rw [if_pos h0]
  right
  have h0' : 0 ≤ (as.access_mem (hdr_addr_of di e)).1 := Int.not_lt.mp h0
  by_cases hv : m.IA64_UNW_VER (as.access_mem (hdr_addr_of di e)).2 = 1
  swap
  · left
    refine ⟨h0', hv, ?_⟩
    simp only [search_found, hdr_addr_of, pi_range] at h0 hv ⊢
    rw [if_neg h0, if_pos hv]
  right
  by_cases hn : need_unwind_info = 0
  · left
    refine ⟨h0', hv, hn, ?_⟩
    simp only [search_found, hdr_addr_of, pi_range, info_end_of, info_addr_of, info_size]
      at h0 hv ⊢
    rw [if_neg h0, if_neg (not_not.mpr hv), if_neg (not_not.mpr hn)]
  right
  by_cases hl : is_local_addr_space b as = true
  · left
    refine ⟨h0', hv, hn, hl, ?_⟩
    simp only [search_found, hdr_addr_of, pi_range, info_end_of, info_addr_of, info_size]
      at h0 hv ⊢
    rw [if_neg h0, if_neg (not_not.mpr hv), if_pos hn, if_pos hl]
  right
  have hl' : is_local_addr_space b as = false := by simpa using hl
  by_cases hp : malloc (info_size m (as.access_mem (hdr_addr_of di e)).2) = 0
  · left
    refine ⟨h0', hv, hn, hl', hp, ?_⟩
    simp only [search_found, hdr_addr_of, pi_range, info_end_of, info_addr_of, info_size]
      at h0 hv hp ⊢
    rw [if_neg h0, if_neg (not_not.mpr hv), if_pos hn, if_neg hl, if_pos hp, hp]
  right
  have hia : info_addr_of di e < WORD := Nat.mod_lt _ (by norm_num [WORD])
  have hS : info_size m (as.access_mem (hdr_addr_of di e)).2 < WORD :=
    Nat.mod_lt _ (by norm_num [WORD])
  have h8 : info_size m (as.access_mem (hdr_addr_of di e)).2 % 8 = 0 := by
    unfold info_size
    rw [WORD_eq]
    omega
  rcases copy_loop_call as (info_addr_of di e)
      (info_size m (as.access_mem (hdr_addr_of di e)).2) [hdr_addr_of di e] hia hS h8
    with ⟨ret, ws1, rs1, hrun, hneg, hacc⟩ | ⟨ws1, rs1, hrun, hws⟩
  · left
    refine ⟨h0', hv, hn, hl', hp, ret, ws1, rs1, hneg, hacc, ?_⟩
    simp only [search_found, hdr_addr_of, pi_range, info_end_of, info_addr_of, info_size]
      at h0 hv hp hrun ⊢
    rw [if_neg h0, if_neg (not_not.mpr hv), if_pos hn, if_neg hl, if_neg hp]
    simp only [hrun]
  · right
    refine ⟨h0', hv, hn, hl', hp, ws1, rs1, hws, ?_⟩
    simp only [search_found, hdr_addr_of, pi_range, info_end_of, info_addr_of, info_size]
      at h0 hv hp hrun ⊢
    rw [if_neg h0, if_neg (not_not.mpr hv), if_pos hn, if_neg hl, if_neg hp]
    simp only [hrun]

/-- A call that returns has passed the assertion of lines 76-77. -/
theorem asserted_of_done (c : Consts) (m : HdrMacros) (b : Build) (malloc : Nat → Nat)
    (as : unw_addr_space) (ip : Nat) (di : unw_dyn_info_t) (pi : unw_proc_info_t)
    (need_unwind_info : Int) (r : Run)
    (h : _Uia64_search_unwind_table c m b malloc as ip di pi need_unwind_info = Exec.done r) :
    asserted c ip di := by
  by_contra hn
  unfold asserted at hn
  simp [_Uia64_search_unwind_table, hn] at h

/-- What lines 142-153 leave behind when they return 0. -/
theorem search_finish_ok (m : HdrMacros) (as : unw_addr_space) (di : unw_dyn_info_t)
    (info_end_addr hdr : Nat) (pi : unw_proc_info_t) (reads mallocs words : List Nat)
    (h : (search_finish m as di info_end_addr hdr pi reads mallocs words).ret = 0) :
    (search_finish m as di info_end_addr hdr pi reads mallocs words).pi =
      { pi with
        handler :=
          if m.IA64_UNW_FLAG_EHANDLER hdr = true ∨ m.IA64_UNW_FLAG_UHANDLER hdr = true then
            ((as.access_mem ((info_end_addr + 8) % WORD)).2 + di.gp) % WORD
          else pi.handler,
        lsda := (info_end_addr + 16) % WORD, gp := di.gp, format := di.format }
    ∧ (search_finish m as di info_end_addr hdr pi reads mallocs words).mallocs = mallocs
    ∧ (search_finish m as di info_end_addr hdr pi reads mallocs words).frees = []
    ∧ (search_finish m as di info_end_addr hdr pi reads mallocs words).words = words := by
  unfold search_finish at h ⊢
  by_cases hfl : m.IA64_UNW_FLAG_EHANDLER hdr = true ∨ m.IA64_UNW_FLAG_UHANDLER hdr = true
  · rw [if_pos hfl] at h ⊢
    by_cases hr : (as.access_mem ((info_end_addr + 8) % WORD)).1 < 0
    · rw [if_pos hr] at h
      simp only at h
      omega
    · rw [if_neg hr, if_pos hfl]
      exact ⟨rfl, rfl, rfl, rfl⟩
  · rw [if_neg hfl, if_neg hfl]
    exact ⟨rfl, rfl, rfl, rfl⟩

/-- Lines 98-153 always return: the bound on the copy loop is never reached. -/
theorem search_found_returns (c : Consts) (m : HdrMacros) (b : Build) (malloc : Nat → Nat)
    (as : unw_addr_space) (di : unw_dyn_info_t) (pi : unw_proc_info_t)
    (need_unwind_info : Int) (e : ia64_table_entry) :
    ∃ r, search_found c m b malloc as di pi need_unwind_info e = Exec.done r := by
  rcases search_found_cases c m b malloc as di pi need_unwind_info e _ rfl with
    ⟨_, hr⟩ | ⟨_, _, hr⟩ | ⟨_, _, _, hr⟩ | ⟨_, _, _, _, hr⟩ | ⟨_, _, _, _, _, hr⟩ |
    ⟨_, _, _, _, _, _, _, _, _, _, hr⟩ | ⟨_, _, _, _, _, _, _, _, hr⟩ <;>
  exact ⟨_, hr⟩

/-- On a table that holds at least one and as many entries as `table_size`
announces, `lookup` returns: the bound on its loop is never reached and no
invalid pointer is dereferenced. -/
theorem lookup_returns (table : List ia64_table_entry) (table_size rel_ip : Nat)
    (hsize : table_size / 24 ≤ table.length) (hne : 1 ≤ table_size / 24) :
    ∃ r, lookup table table_size rel_ip = Exec.done r := by
  obtain ⟨r, hr, hcase⟩ := lookup_loop_done table rel_ip (table_size / 24) 0
    (table_size / 24) none (by omega) hsize
  rcases hcase with ⟨h0, _⟩ | ⟨_, m, rfl, _, hm⟩
  · omega
  · have hmlt : m < table.length := by omega
    have hget : table[m]? = some table[m] := List.getElem?_eq_getElem hmlt
    rw [lookup_of_loop hr hget]
    split_ifs
    · exact ⟨_, rfl⟩
    · exact ⟨_, rfl⟩

/-- C3.  When the assertion holds and `lookup` returns `NULL`, the call returns
0, has read nothing through the accessor, and leaves `start_ip = end_ip = 0`,
`gp = di->gp`, `lsda = 0`, `handler = 0` and a null `unwind_info`. -/
theorem search_no_entry (c : Consts) (m : HdrMacros) (b : Build) (malloc : Nat → Nat)
    (as : unw_addr_space) (ip : Nat) (di : unw_dyn_info_t) (pi : unw_proc_info_t)
    (need_unwind_info : Int) (ha : asserted c ip di)
    (hl : lookup di.table_data ((di.table_len * 8) % WORD) (rel_ip_of ip di)
      = Exec.done none) :
    ∃ r, _Uia64_search_unwind_table c m b malloc as ip di pi need_unwind_info = Exec.done r
      ∧ r.ret = 0 ∧ r.reads = [] ∧ r.pi.start_ip = 0 ∧ r.pi.end_ip = 0 ∧ r.pi.gp = di.gp
      ∧ r.pi.lsda = 0 ∧ r.pi.handler = 0 ∧ r.pi.unwind_info = 0 := by
  unfold asserted at ha
  unfold rel_ip_of at hl
  have heq : _Uia64_search_unwind_table c m b malloc as ip di pi need_unwind_info
      = Exec.done { ret := 0, pi := { pi_zero with gp := di.gp }, reads := [], mallocs := [],
                    frees := [], words := [] } := by
    simp only [_Uia64_search_unwind_table, ha, and_self, not_true_eq_false, if_false, hl]
    rfl
  exact ⟨_, heq, rfl, rfl, rfl, rfl, rfl, rfl, rfl, rfl⟩

/-- Witness for C3: the specification's table `[{100,200,O1}]` at
`segment_base = 0x10000`, queried at relative address 250. -/
theorem search_no_entry_witness :
    ∃ r, _Uia64_search_unwind_table unwConsts ia64Hdr exBuild exMalloc
        (exRemote (exMem exHdrPlain)) (0x10000 + 250) exDi exPi 1 = Exec.done r
      ∧ r.ret = 0 ∧ r.reads = [] ∧ r.pi.start_ip = 0 ∧ r.pi.end_ip = 0 ∧ r.pi.gp = exDi.gp
      ∧ r.pi.lsda = 0 ∧ r.pi.handler = 0 ∧ r.pi.unwind_info = 0 :=
  search_no_entry unwConsts ia64Hdr exBuild exMalloc (exRemote (exMem exHdrPlain))
    (0x10000 + 250) exDi exPi 1 (by unfold asserted; decide) (by decide)

/-- The last element of a list that ends in `y`. -/
theorem getLast_cons_snoc (x y : Nat) (l : List Nat) :
    (x :: (l ++ [y])).getLast? = some y := by
  rw [← List.cons_append, List.getLast?_append]
  simp

/-- The reads logged by the copy loop extend the log it started with; when it
hands back a code, the last logged read is the one that failed with it. -/
theorem copy_loop_reads (as : unw_addr_space) (info_end_addr : Nat) :
    ∀ (fuel addr : Nat) (ws rs : List Nat) (x : Option Int) (ws1 rs1 : List Nat),
      copy_loop as info_end_addr fuel addr ws rs = Exec.done (x, ws1, rs1) →
      (∃ suf, rs1 = rs ++ suf)
      ∧ (∀ ret, x = some ret →
          ∃ pre a, rs1 = rs ++ (pre ++ [a]) ∧ (as.access_mem a).1 = ret) := by
  intro fuel
  induction fuel with
  | zero =>
    intro addr ws rs x ws1 rs1 h
    simp only [copy_loop] at h
    split_ifs at h
    have h2 := Exec.done.inj h
    simp only [Prod.mk.injEq] at h2
    obtain ⟨hx, _, hrs⟩ := h2
    subst hx hrs
    exact ⟨⟨[], by simp⟩, fun ret hret => by simp at hret⟩
  | succ n ih =>
    intro addr ws rs x ws1 rs1 h
    simp only [copy_loop] at h
    split_ifs at h with h1 h2
    · have h3 := Exec.done.inj h
      simp only [Prod.mk.injEq] at h3
      obtain ⟨hx, _, hrs⟩ := h3
      subst hx hrs
      refine ⟨⟨[addr], rfl⟩, fun ret hret => ⟨[], addr, by simp, ?_⟩⟩
      exact Option.some.inj hret
    · obtain ⟨⟨suf, hsuf⟩, hfail⟩ := ih _ _ _ _ _ _ h
      refine ⟨⟨addr :: suf, by rw [hsuf]; simp⟩, fun ret hret => ?_⟩
      obtain ⟨pre, a, hpre, ha⟩ := hfail ret hret
      exact ⟨addr :: pre, a, by rw [hpre]; simp, ha⟩
    · have h3 := Exec.done.inj h
      simp only [Prod.mk.injEq] at h3
      obtain ⟨hx, _, hrs⟩ := h3
      subst hx hrs
      exact ⟨⟨[], by simp⟩, fun ret hret => by simp at hret⟩

/-- Lines 142-153 either return 0, keeping or extending the read log, or log
the personality read last and return the code it failed with. -/
theorem search_finish_reads (m : HdrMacros) (as : unw_addr_space) (di : unw_dyn_info_t)
    (info_end_addr hdr : Nat) (pi : unw_proc_info_t) (reads mallocs words : List Nat) :
    ((search_finish m as di info_end_addr hdr pi reads mallocs words).ret = 0
      ∧ ∃ suf, (search_finish m as di info_end_addr hdr pi reads mallocs words).reads
          = reads ++ suf)
    ∨ ((search_finish m as di info_end_addr hdr pi reads mallocs words).reads
          = reads ++ [(info_end_addr + 8) % WORD]
      ∧ (as.access_mem ((info_end_addr + 8) % WORD)).1
          = (search_finish m as di info_end_addr hdr pi reads mallocs words).ret) := by
  unfold search_finish
  by_cases hfl : m.IA64_UNW_FLAG_EHANDLER hdr = true ∨ m.IA64_UNW_FLAG_UHANDLER hdr = true
  · rw [if_pos hfl]
    by_cases hr : (as.access_mem ((info_end_addr + 8) % WORD)).1 < 0
    · rw [if_pos hr]
      exact Or.inr ⟨rfl, rfl⟩
    · rw [if_neg hr]
      exact Or.inl ⟨rfl, _, rfl⟩
  · rw [if_neg hfl]
    exact Or.inl ⟨rfl, [], by simp⟩

/-- The remote path through lines 121-153 (unwind info requested, remote
address space, successful `malloc`) in terms of the result of the copy loop. -/
theorem search_found_remote (c : Consts) (m : HdrMacros) (b : Build) (malloc : Nat → Nat)
    (as : unw_addr_space) (di : unw_dyn_info_t) (pi : unw_proc_info_t)
    (need_unwind_info : Int) (e : ia64_table_entry) (hdr : Nat)
    (hhdr : hdr = (as.access_mem (hdr_addr_of di e)).2)
    (h0 : 0 ≤ (as.access_mem (hdr_addr_of di e)).1) (hv : m.IA64_UNW_VER hdr = 1)
    (hn : need_unwind_info ≠ 0) (hl : is_local_addr_space b as = false)
    (hp : malloc (info_size m hdr) ≠ 0) :
    ∃ x ws rs r,
      copy_loop as (info_end_of m di e hdr) (info_size m hdr / 8) (info_addr_of di e) []
        [hdr_addr_of di e] = Exec.done (x, ws, rs)
      ∧ search_found c m b malloc as di pi need_unwind_info e = Exec.done r
      ∧ ((∃ ret, x = some ret ∧ r.ret = ret ∧ r.reads = rs)
        ∨ (x = none ∧ ∃ P ms, r = search_finish m as di (info_end_of m di e hdr) hdr P rs ms ws))
    := by
  subst hhdr
  have hn0 : ¬ (as.access_mem (hdr_addr_of di e)).1 < 0 := Int.not_lt.mpr h0
  have hl2 : ¬ is_local_addr_space b as = true := by rw [hl]; decide
  have hia : info_addr_of di e < WORD := Nat.mod_lt _ (by norm_num [WORD])
  have hS : info_size m (as.access_mem (hdr_addr_of di e)).2 < WORD :=
    Nat.mod_lt _ (by norm_num [WORD])
  have h8 : info_size m (as.access_mem (hdr_addr_of di e)).2 % 8 = 0 := by
    unfold info_size
    rw [WORD_eq]
    omega
  rcases copy_loop_call as (info_addr_of di e)
      (info_size m (as.access_mem (hdr_addr_of di e)).2) [hdr_addr_of di e] hia hS h8
    with ⟨ret, ws1, rs1, hrun, _, _⟩ | ⟨ws1, rs1, hrun, _⟩
  · have hsf : search_found c m b malloc as di pi need_unwind_info e
        = Exec.done { ret := ret,
                      pi := { pi_range di e pi with
                                unwind_info_size := word_to_int
                                  (info_size m (as.access_mem (hdr_addr_of di e)).2),
                                unwind_info :=
                                  malloc (info_size m (as.access_mem (hdr_addr_of di e)).2) },
                      reads := rs1,
                      mallocs := [malloc (info_size m (as.access_mem (hdr_addr_of di e)).2)],
                      frees := [malloc (info_size m (as.access_mem (hdr_addr_of di e)).2)],
                      words := ws1 } := by
      simp only [search_found, hdr_addr_of, pi_range, info_end_of, info_addr_of, info_size]
        at hn0 hv hp hrun ⊢
      rw [if_neg hn0, if_neg (not_not.mpr hv), if_pos hn, if_neg hl2, if_neg hp]
      simp only [hrun]
    exact ⟨some ret, ws1, rs1, _, hrun, hsf, Or.inl ⟨ret, rfl, rfl, rfl⟩⟩
  · have hsf : search_found c m b malloc as di pi need_unwind_info e
        = Exec.done (search_finish m as di
            (info_end_of m di e (as.access_mem (hdr_addr_of di e)).2)
            (as.access_mem (hdr_addr_of di e)).2
            { pi_range di e pi with
                unwind_info_size := word_to_int
                  (info_size m (as.access_mem (hdr_addr_of di e)).2),
                unwind_info := malloc (info_size m (as.access_mem (hdr_addr_of di e)).2) }
            rs1 [malloc (info_size m (as.access_mem (hdr_addr_of di e)).2)] ws1) := by
      simp only [search_found, hdr_addr_of, pi_range, info_end_of, info_addr_of, info_size]
        at hn0 hv hp hrun ⊢
      rw [if_neg hn0, if_neg (not_not.mpr hv), if_pos hn, if_neg hl2, if_neg hp]
      simp only [hrun]
    exact ⟨none, ws1, rs1, _, hrun, hsf, Or.inr ⟨rfl, _, _, rfl⟩⟩

/-- After a successful read of a version-1 header, lines 112-153 return; the
header read is the first read logged; and the return value is 0, or
`-UNW_ENOMEM`, or the code of the last read logged, which is not the header
read. -/
theorem search_found_error_read (c : Consts) (m : HdrMacros) (b : Build)
    (malloc : Nat → Nat) (as : unw_addr_space) (di : unw_dyn_info_t) (pi : unw_proc_info_t)
    (need_unwind_info : Int) (e : ia64_table_entry)
    (h0 : 0 ≤ (as.access_mem (hdr_addr_of di e)).1)
    (hv : m.IA64_UNW_VER (as.access_mem (hdr_addr_of di e)).2 = 1) :
    ∃ r, search_found c m b malloc as di pi need_unwind_info e = Exec.done r
      ∧ r.reads.head? = some (hdr_addr_of di e)
      ∧ (r.ret = 0 ∨ r.ret = -c.UNW_ENOMEM
        ∨ ∃ a, r.reads.getLast? = some a ∧ 2 ≤ r.reads.length
            ∧ (as.access_mem a).1 = r.ret) := by
  have hfin : ∀ (P : unw_proc_info_t) (suf ms ws : List Nat) (r : Run),
      r = search_finish m as di
        (info_end_of m di e (as.access_mem (hdr_addr_of di e)).2)
        (as.access_mem (hdr_addr_of di e)).2 P (hdr_addr_of di e :: suf) ms ws →
      r.reads.head? = some (hdr_addr_of di e)
      ∧ (r.ret = 0 ∨ r.ret = -c.UNW_ENOMEM
        ∨ ∃ a, r.reads.getLast? = some a ∧ 2 ≤ r.reads.length
            ∧ (as.access_mem a).1 = r.ret) := by
    intro P suf ms ws r hr
    rcases search_finish_reads m as di
        (info_end_of m di e (as.access_mem (hdr_addr_of di e)).2)
        (as.access_mem (hdr_addr_of di e)).2 P (hdr_addr_of di e :: suf) ms ws with
      ⟨hz, suf2, hrd⟩ | ⟨hrd, hcode⟩
    · rw [← hr] at hz hrd
      exact ⟨by rw [hrd]; rfl, Or.inl hz⟩
    · rw [← hr] at hrd hcode
      refine ⟨by rw [hrd]; rfl, Or.inr (Or.inr ⟨_, ?_, ?_, hcode⟩)⟩
      · rw [hrd]; exact getLast_cons_snoc _ _ _
      · rw [hrd]; simp
  rcases search_found_cases c m b malloc as di pi need_unwind_info e _ rfl with
    ⟨h1, _⟩ | ⟨_, hv2, _⟩ | ⟨_, _, _, hr⟩ | ⟨_, _, _, _, hr⟩ | ⟨_, _, _, _, _, hr⟩ |
    ⟨_, _, hn, hl, hp, _⟩ | ⟨_, _, hn, hl, hp, _⟩
  · omega
  · exact absurd hv hv2
  · exact ⟨_, hr, hfin _ [] _ _ _ rfl⟩
  · exact ⟨_, hr, hfin _ [] _ _ _ rfl⟩
  · exact ⟨_, hr, rfl, Or.inr (Or.inl rfl)⟩
  all_goals
    obtain ⟨x, ws, rs, r, hcl, hrun, hcase⟩ :=
      search_found_remote c m b malloc as di pi need_unwind_info e _ rfl h0 hv hn hl hp
    obtain ⟨⟨suf, hsuf⟩, hfail⟩ := copy_loop_reads as _ _ _ _ _ _ _ _ hcl
    rcases hcase with ⟨ret, hx, hret, hreads⟩ | ⟨_, P, ms, hr⟩
    · obtain ⟨pre, a, hpre, ha⟩ := hfail ret hx
      refine ⟨r, hrun, by rw [hreads, hpre]; rfl, Or.inr (Or.inr ⟨a, ?_, ?_, ?_⟩)⟩
      · rw [hreads, hpre]; exact getLast_cons_snoc _ _ _
      · rw [hreads, hpre]; simp
      · rw [hret]; exact ha
    · rw [hsuf] at hr
      exact ⟨r, hrun, hfin P suf ms ws r hr⟩

/-- C4, as amended.  When an entry is found and the header word is read
successfully: a version other than 1 makes the call return
`-UNW_EBADVERSION`, whatever the other header fields, `need_unwind_info` and
the address space are; with version 1 the call returns, its first read is the
header read, and it returns `-UNW_EBADVERSION` only when the last read it made,
a read after the header read, itself failed with that code (the error codes
being positive and distinct). -/
theorem search_bad_version (c : Consts) (m : HdrMacros) (b : Build) (malloc : Nat → Nat)
    (as : unw_addr_space) (ip : Nat) (di : unw_dyn_info_t) (pi : unw_proc_info_t)
    (need_unwind_info : Int) (i : Nat) (e : ia64_table_entry)
    (ha : asserted c ip di) (hf : lookup_finds ip di i e)
    (hread : 0 ≤ (as.access_mem (hdr_addr_of di e)).1) :
    (m.IA64_UNW_VER (as.access_mem (hdr_addr_of di e)).2 ≠ 1 →
      ∃ r, _Uia64_search_unwind_table c m b malloc as ip di pi need_unwind_info = Exec.done r
        ∧ r.ret = -c.UNW_EBADVERSION)
    ∧ (m.IA64_UNW_VER (as.access_mem (hdr_addr_of di e)).2 = 1 →
      0 < c.UNW_EBADVERSION → c.UNW_ENOMEM ≠ c.UNW_EBADVERSION →
      ∃ r, _Uia64_search_unwind_table c m b malloc as ip di pi need_unwind_info = Exec.done r
        ∧ r.reads.head? = some (hdr_addr_of di e)
        ∧ (r.ret = -c.UNW_EBADVERSION →
            ∃ a, r.reads.getLast? = some a ∧ 2 ≤ r.reads.length
              ∧ (as.access_mem a).1 = -c.UNW_EBADVERSION)) := by
  rw [search_of_found c m b malloc as ip di pi need_unwind_info i e ha hf]
  constructor
  · intro hver
    rcases search_found_cases c m b malloc as di (pi_reset pi) need_unwind_info e _ rfl with
      ⟨h0, _⟩ | ⟨_, _, hr⟩ | ⟨_, hv, _⟩ | ⟨_, hv, _⟩ | ⟨_, hv, _⟩ | ⟨_, hv, _⟩ | ⟨_, hv, _⟩
    · omega
    · exact ⟨_, hr, rfl⟩
    all_goals exact absurd hv hver
  · intro hver hpos hmem
    obtain ⟨r, hrun, hhead, hcase⟩ :=
      search_found_error_read c m b malloc as di (pi_reset pi) need_unwind_info e hread hver
    refine ⟨r, hrun, hhead, fun hbad => ?_⟩
    rcases hcase with h | h | ⟨a, h1, h2, h3⟩
    · omega
    · omega
    · exact ⟨a, h1, h2, by rw [h3]; exact hbad⟩

/-- Witness for C4: the specification's module queried at relative address
150, once with a version-2 header, and once with a version-1 header whose
personality read at `0x10418` fails with `-UNW_EBADVERSION`: that read is the
last of the call. -/
theorem search_bad_version_witness :
    (∃ r, _Uia64_search_unwind_table unwConsts ia64Hdr exBuild exMalloc
        (exRemote (exMem exHdrV2)) (0x10000 + 150) exDi exPi 1 = Exec.done r
      ∧ r.ret = -unwConsts.UNW_EBADVERSION)
    ∧ (∃ r, _Uia64_search_unwind_table unwConsts ia64Hdr exBuild exMalloc
        (exRemote (exMemFail exHdrEh 0x10418 (-9))) (0x10000 + 150) exDi exPi 1 = Exec.done r
      ∧ r.reads.head? = some 0x10400
      ∧ (r.ret = -9 →
          ∃ a, r.reads.getLast? = some a ∧ 2 ≤ r.reads.length
            ∧ ((exRemote (exMemFail exHdrEh 0x10418 (-9))).access_mem a).1 = -9)) :=
  ⟨(search_bad_version unwConsts ia64Hdr exBuild exMalloc (exRemote (exMem exHdrV2))
      (0x10000 + 150) exDi exPi 1 0 ⟨100, 200, 0x400⟩ (by unfold asserted; decide)
      (by unfold lookup_finds; decide) (by decide)).1 (by decide),
    (search_bad_version unwConsts ia64Hdr exBuild exMalloc
      (exRemote (exMemFail exHdrEh 0x10418 (-9))) (0x10000 + 150) exDi exPi 1 0
      ⟨100, 200, 0x400⟩ (by unfold asserted; decide)
      (by unfold lookup_finds; decide) (by decide)).2 (by decide) (by decide) (by decide)⟩

/-- Counterexample to C4 as stated.  The header has version 1 and the
exception-handler flag; the accessor fails the personality read at `0x10418`
with the code `-UNW_EBADVERSION`, and the call returns that code. -/
theorem search_version1_returns_bad_version_counterexample :
    asserted unwConsts (0x10000 + 150) exDi
    ∧ lookup_finds (0x10000 + 150) exDi 0 ⟨100, 200, 0x400⟩
    ∧ 0 ≤ ((exRemote (exMemFail exHdrEh 0x10418 (-9))).access_mem
        (hdr_addr_of exDi ⟨100, 200, 0x400⟩)).1
    ∧ ia64Hdr.IA64_UNW_VER ((exRemote (exMemFail exHdrEh 0x10418 (-9))).access_mem
        (hdr_addr_of exDi ⟨100, 200, 0x400⟩)).2 = 1
    ∧ ∃ r, _Uia64_search_unwind_table unwConsts ia64Hdr exBuild exMalloc
        (exRemote (exMemFail exHdrEh 0x10418 (-9))) (0x10000 + 150) exDi exPi 0
          = Exec.done r
      ∧ r.ret = -unwConsts.UNW_EBADVERSION := by
  refine ⟨by unfold asserted; decide, by unfold lookup_finds; decide, by decide, by decide,
    _, rfl, ?_⟩
  decide

/-- A call that found the entry `e` and returned 0 read a version-1 header and
went through lines 142-153, entered with one of three contents of `*pi`
according to `need_unwind_info` and the locality of the address space. -/
theorem success_path (c : Consts) (m : HdrMacros) (b : Build) (malloc : Nat → Nat)
    (as : unw_addr_space) (ip : Nat) (di : unw_dyn_info_t) (pi : unw_proc_info_t)
    (need_unwind_info : Int) (i : Nat) (e : ia64_table_entry) (r : Run) (hdr : Nat)
    (hhdr : hdr = (as.access_mem (hdr_addr_of di e)).2)
    (hc : error_codes_positive c) (hf : lookup_finds ip di i e)
    (hrun : _Uia64_search_unwind_table c m b malloc as ip di pi need_unwind_info
      = Exec.done r)
    (hret : r.ret = 0) :
    0 ≤ (as.access_mem (hdr_addr_of di e)).1 ∧ m.IA64_UNW_VER hdr = 1 ∧
    ∃ (P : unw_proc_info_t) (rs ms ws : List Nat),
      r = search_finish m as di (info_end_of m di e hdr) hdr P rs ms ws ∧
      ((need_unwind_info = 0 ∧ P = pi_range di e (pi_reset pi) ∧ ms = [])
      ∨ (need_unwind_info ≠ 0 ∧ is_local_addr_space b as = true ∧
          P = { pi_range di e (pi_reset pi) with unwind_info_size := word_to_int (info_size m hdr),
                                                 unwind_info := info_addr_of di e } ∧
          ms = [])
      ∨ (need_unwind_info ≠ 0 ∧ is_local_addr_space b as = false ∧
          malloc (info_size m hdr) ≠ 0 ∧
          P = { pi_range di e (pi_reset pi) with unwind_info_size := word_to_int (info_size m hdr),
                                                 unwind_info := malloc (info_size m hdr) } ∧
          ms = [malloc (info_size m hdr)] ∧
          (info_addr_of di e + info_size m hdr < WORD →
            ws = (List.range (info_size m hdr / 8)).map
              (fun j => (as.access_mem (info_addr_of di e + 8 * j)).2)))) := by
  have ha := asserted_of_done c m b malloc as ip di pi need_unwind_info r hrun
  rw [search_of_found c m b malloc as ip di pi need_unwind_info i e ha hf] at hrun
  obtain ⟨hc1, hc2, _⟩ := hc
  rcases search_found_cases c m b malloc as di (pi_reset pi) need_unwind_info e hdr hhdr with
    ⟨h0, hr⟩ | ⟨_, _, hr⟩ | ⟨h0, hv, hn, hr⟩ | ⟨h0, hv, hn, hl, hr⟩ | ⟨_, _, _, _, _, hr⟩ |
    ⟨_, _, _, _, _, ret, ws, rs, hneg, _, hr⟩ | ⟨h0, hv, hn, hl, hp, ws, rs, hws, hr⟩
  · rw [hr] at hrun
    have := Exec.done.inj hrun
    subst this
    simp only at hret
    omega
  · rw [hr] at hrun
    have := Exec.done.inj hrun
    subst this
    simp only at hret
    omega
  · rw [hr] at hrun
    exact ⟨h0, hv, _, _, _, _, (Exec.done.inj hrun).symm, Or.inl ⟨hn, rfl, rfl⟩⟩
  · rw [hr] at hrun
    exact ⟨h0, hv, _, _, _, _, (Exec.done.inj hrun).symm, Or.inr (Or.inl ⟨hn, hl, rfl, rfl⟩)⟩
  · rw [hr] at hrun
    have := Exec.done.inj hrun
    subst this
    simp only at hret
    omega
  · rw [hr] at hrun
    have := Exec.done.inj hrun
    subst this
    simp only at hret
    omega
  · rw [hr] at hrun
    exact ⟨h0, hv, _, _, _, _, (Exec.done.inj hrun).symm,
      Or.inr (Or.inr ⟨hn, hl, hp, rfl, rfl, hws⟩)⟩

/-- C5.  A call that found the entry `e`, read the header word `hdr` at
`segbase + e.info_offset` and returned 0 leaves
`start_ip = segbase + e.start_offset`, `end_ip = segbase + e.end_offset`,
`lsda = (segbase + e.info_offset + 8) + 8 * length(hdr) + 16` (all modulo
`2^64`), `gp = di->gp` and `format = di->format`. -/
theorem search_success_fields (c : Consts) (m : HdrMacros) (b : Build) (malloc : Nat → Nat)
    (as : unw_addr_space) (ip : Nat) (di : unw_dyn_info_t) (pi : unw_proc_info_t)
    (need_unwind_info : Int) (i : Nat) (e : ia64_table_entry) (r : Run)
    (hc : error_codes_positive c) (hf : lookup_finds ip di i e)
    (hrun : _Uia64_search_unwind_table c m b malloc as ip di pi need_unwind_info
      = Exec.done r)
    (hret : r.ret = 0) :
    r.pi.start_ip = (di.segbase + e.start_offset) % WORD
    ∧ r.pi.end_ip = (di.segbase + e.end_offset) % WORD
    ∧ r.pi.lsda = ((di.segbase + e.info_offset + 8)
        + 8 * m.IA64_UNW_LENGTH (as.access_mem ((di.segbase + e.info_offset) % WORD)).2
        + 16) % WORD
    ∧ r.pi.gp = di.gp ∧ r.pi.format = di.format := by
  obtain ⟨_, _, P, rs, ms, ws, hr, hP⟩ :=
    success_path c m b malloc as ip di pi need_unwind_info i e r _ rfl hc hf hrun hret
  rw [hr] at hret
  obtain ⟨hpi, _⟩ := search_finish_ok m as di _ _ P rs ms ws hret
  rw [← hr] at hpi
  have hcomm : (di.segbase + e.info_offset) % WORD = hdr_addr_of di e := by
    unfold hdr_addr_of; rw [Nat.add_comm]
  have hlsda : (info_end_of m di e (as.access_mem (hdr_addr_of di e)).2 + 16) % WORD
      = ((di.segbase + e.info_offset + 8)
        + 8 * m.IA64_UNW_LENGTH (as.access_mem (hdr_addr_of di e)).2 + 16) % WORD := by
    unfold info_end_of info_addr_of info_size hdr_addr_of
    rw [WORD_eq]
    omega
  have hstart : P.start_ip = (di.segbase + e.start_offset) % WORD
      ∧ P.end_ip = (di.segbase + e.end_offset) % WORD := by
    rcases hP with ⟨_, rfl, _⟩ | ⟨_, _, rfl, _⟩ | ⟨_, _, _, rfl, _⟩ <;>
      exact ⟨by simp [pi_range, Nat.add_comm], by simp [pi_range, Nat.add_comm]⟩
  rw [hpi, hcomm]
  exact ⟨hstart.1, hstart.2, hlsda, rfl, rfl⟩

/-- Witness for C5: the specification's module, header of version 1 and length
1, queried at relative address 150 in a remote address space. -/
theorem search_success_fields_witness :
    ∃ r, _Uia64_search_unwind_table unwConsts ia64Hdr exBuild exMalloc
        (exRemote (exMem exHdrPlain)) (0x10000 + 150) exDi exPi 1 = Exec.done r
      ∧ r.ret = 0
      ∧ r.pi.start_ip = 0x10000 + 100 ∧ r.pi.end_ip = 0x10000 + 200
      ∧ r.pi.lsda = 0x10420 ∧ r.pi.gp = 0x1000 ∧ r.pi.format = 1 :=
  ⟨_, rfl, rfl,
    search_success_fields unwConsts ia64Hdr exBuild exMalloc (exRemote (exMem exHdrPlain))
      (0x10000 + 150) exDi exPi 1 0 ⟨100, 200, 0x400⟩ _
      (by unfold error_codes_positive; decide) (by unfold lookup_finds; decide) rfl rfl⟩

/-- C7, as amended.  A call that found an entry whose header has neither
handler flag set and that returned 0 leaves `handler = 0` and
`lsda = info_end + 16` modulo `2^64`; this `lsda` is non-null unless
`info_end = 2^64 - 16`. -/
theorem search_no_handler (c : Consts) (m : HdrMacros) (b : Build) (malloc : Nat → Nat)
    (as : unw_addr_space) (ip : Nat) (di : unw_dyn_info_t) (pi : unw_proc_info_t)
    (need_unwind_info : Int) (i : Nat) (e : ia64_table_entry) (r : Run) (hdr : Nat)
    (hhdr : hdr = (as.access_mem (hdr_addr_of di e)).2)
    (hc : error_codes_positive c) (hf : lookup_finds ip di i e)
    (hrun : _Uia64_search_unwind_table c m b malloc as ip di pi need_unwind_info
      = Exec.done r)
    (hret : r.ret = 0)
    (heh : m.IA64_UNW_FLAG_EHANDLER hdr = false) (huh : m.IA64_UNW_FLAG_UHANDLER hdr = false) :
    m.IA64_UNW_VER hdr = 1
    ∧ r.pi.handler = 0
    ∧ r.pi.lsda = (info_end_of m di e hdr + 16) % WORD
    ∧ (info_end_of m di e hdr ≠ WORD - 16 → r.pi.lsda ≠ 0) := by
  obtain ⟨_, hver, P, rs, ms, ws, hr, hP⟩ :=
    success_path c m b malloc as ip di pi need_unwind_info i e r hdr hhdr hc hf hrun hret
  rw [hr] at hret
  obtain ⟨hpi, _⟩ := search_finish_ok m as di _ _ P rs ms ws hret
  rw [← hr] at hpi
  have hflag : ¬ (m.IA64_UNW_FLAG_EHANDLER hdr = true ∨ m.IA64_UNW_FLAG_UHANDLER hdr = true) := by
    rw [heh, huh]; simp
  have hh : P.handler = 0 := by
    rcases hP with ⟨_, rfl, _⟩ | ⟨_, _, rfl, _⟩ | ⟨_, _, _, rfl, _⟩ <;> rfl
  have hie : info_end_of m di e hdr < WORD := Nat.mod_lt _ (by norm_num [WORD])
  rw [hpi, if_neg hflag]
  refine ⟨hver, hh, rfl, ?_⟩
  intro hne
  show (info_end_of m di e hdr + 16) % WORD ≠ 0
  rw [WORD_eq] at hie hne ⊢
  omega

/-- Witness for C7: the specification's module with a version-1 header without
handler flags. -/
theorem search_no_handler_witness :
    ∃ r, _Uia64_search_unwind_table unwConsts ia64Hdr exBuild exMalloc
        (exRemote (exMem exHdrPlain)) (0x10000 + 150) exDi exPi 0 = Exec.done r
      ∧ r.ret = 0 ∧ r.pi.handler = 0 ∧ r.pi.lsda = 0x10420 ∧ r.pi.lsda ≠ 0 :=
  ⟨_, rfl, rfl,
    (search_no_handler unwConsts ia64Hdr exBuild exMalloc (exRemote (exMem exHdrPlain))
      (0x10000 + 150) exDi exPi 0 0 ⟨100, 200, 0x400⟩ _ exHdrPlain (by decide)
      (by unfold error_codes_positive; decide) (by unfold lookup_finds; decide) rfl rfl
      (by decide) (by decide)).2.1,
    (search_no_handler unwConsts ia64Hdr exBuild exMalloc (exRemote (exMem exHdrPlain))
      (0x10000 + 150) exDi exPi 0 0 ⟨100, 200, 0x400⟩ _ exHdrPlain (by decide)
      (by unfold error_codes_positive; decide) (by unfold lookup_finds; decide) rfl rfl
      (by decide) (by decide)).2.2.1,
    (search_no_handler unwConsts ia64Hdr exBuild exMalloc (exRemote (exMem exHdrPlain))
      (0x10000 + 150) exDi exPi 0 0 ⟨100, 200, 0x400⟩ _ exHdrPlain (by decide)
      (by unfold error_codes_positive; decide) (by unfold lookup_finds; decide) rfl rfl
      (by decide) (by decide)).2.2.2 (by decide)⟩

/-- Counterexample to C7 as stated.  The header (version 1, no handler flag,
length 1) lies at `2^64 - 32`, so the info block ends at `2^64 - 16`; the call
returns 0 with `handler = 0` and `lsda = 0`. -/
theorem search_null_lsda_counterexample :
    lookup_finds 150 (exDiAt (2 ^ 64 - 32)) 0 ⟨100, 200, 2 ^ 64 - 32⟩
    ∧ ia64Hdr.IA64_UNW_VER exHdrPlain = 1
    ∧ ia64Hdr.IA64_UNW_FLAG_EHANDLER exHdrPlain = false
    ∧ ia64Hdr.IA64_UNW_FLAG_UHANDLER exHdrPlain = false
    ∧ info_end_of ia64Hdr (exDiAt (2 ^ 64 - 32)) ⟨100, 200, 2 ^ 64 - 32⟩ exHdrPlain
        = 2 ^ 64 - 16
    ∧ ∃ r, _Uia64_search_unwind_table unwConsts ia64Hdr exBuild exMalloc
        (exRemote (exMemConst exHdrPlain)) 150 (exDiAt (2 ^ 64 - 32)) exPi 0 = Exec.done r
      ∧ r.ret = 0 ∧ r.pi.handler = 0 ∧ r.pi.lsda = 0 := by
  refine ⟨by unfold lookup_finds; decide, by decide, by decide, by decide, by decide,
    _, rfl, ?_, ?_, ?_⟩ <;> decide

/-- A word below `2^31` is unchanged by the conversion to `int`. -/
theorem word_to_int_small (x : Nat) (h : x < 2 ^ 31) : word_to_int x = (x : Int) := by
  unfold word_to_int
  omega

/-- C8, as amended.  A call with `need_unwind_info` set that found an entry
with header length field `L` (`8 * L` fitting in 64 bits) and returned 0
leaves in the `int` field `unwind_info_size` the low 32 bits of `8 * L`, which
is `8 * L` itself when `8 * L < 2^31`; in a local address space
`unwind_info = info_addr` and nothing was allocated; in a remote address space
`unwind_info` is the non-null block that `malloc (8 * L)` returned, still
allocated, and, provided `info_addr + 8 * L < 2^64`, its `i`-th word for every
`i < L` is the word the accessor yields at `info_addr + 8 * i`. -/
theorem search_unwind_info (c : Consts) (m : HdrMacros) (b : Build) (malloc : Nat → Nat)
    (as : unw_addr_space) (ip : Nat) (di : unw_dyn_info_t) (pi : unw_proc_info_t)
    (need_unwind_info : Int) (i : Nat) (e : ia64_table_entry) (r : Run) (L : Nat)
    (hL : L = m.IA64_UNW_LENGTH (as.access_mem (hdr_addr_of di e)).2)
    (hc : error_codes_positive c) (hf : lookup_finds ip di i e)
    (hrun : _Uia64_search_unwind_table c m b malloc as ip di pi need_unwind_info
      = Exec.done r)
    (hret : r.ret = 0) (hneed : need_unwind_info ≠ 0) (hfit : 8 * L < WORD) :
    r.pi.unwind_info_size = word_to_int (8 * L)
    ∧ (8 * L < 2 ^ 31 → r.pi.unwind_info_size = ((8 * L : Nat) : Int))
    ∧ (is_local_addr_space b as = true →
        r.pi.unwind_info = info_addr_of di e ∧ r.mallocs = [])
    ∧ (is_local_addr_space b as = false →
        r.pi.unwind_info = malloc (8 * L) ∧ malloc (8 * L) ≠ 0
        ∧ r.mallocs = [malloc (8 * L)] ∧ r.frees = []
        ∧ (info_addr_of di e + 8 * L < WORD →
            ∀ k, k < L → r.words[k]? = some (as.access_mem (info_addr_of di e + 8 * k)).2)) := by
  obtain ⟨_, _, P, rs, ms, ws, hr, hP⟩ :=
    success_path c m b malloc as ip di pi need_unwind_info i e r _ rfl hc hf hrun hret
  rw [hr] at hret
  obtain ⟨hpi, hms, hfr, hws⟩ := search_finish_ok m as di _ _ P rs ms ws hret
  rw [← hr] at hpi hms hfr hws
  have hS : info_size m (as.access_mem (hdr_addr_of di e)).2 = 8 * L := by
    unfold info_size
    rw [← hL]
    exact Nat.mod_eq_of_lt hfit
  rw [hS] at hP
  have hdiv : 8 * L / 8 = L := by omega
  have hsize : P.unwind_info_size = word_to_int (8 * L) := by
    rcases hP with ⟨h0, _⟩ | ⟨_, _, rfl, _⟩ | ⟨_, _, _, rfl, _⟩
    · exact absurd h0 hneed
    · rfl
    · rfl
  have hsz : r.pi.unwind_info_size = word_to_int (8 * L) := by
    rw [hpi]; exact hsize
  refine ⟨hsz, fun hsmall => by rw [hsz]; exact word_to_int_small _ hsmall, ?_, ?_⟩
  · intro hloc
    rw [hpi, hms]
    rcases hP with ⟨h0, _⟩ | ⟨_, _, rfl, rfl⟩ | ⟨_, hl, _⟩
    · exact absurd h0 hneed
    · exact ⟨rfl, rfl⟩
    · rw [hl] at hloc; exact absurd hloc (by decide)
  · intro hrem
    rw [hpi, hms, hfr, hws]
    rcases hP with ⟨h0, _⟩ | ⟨_, hl, _⟩ | ⟨_, _, hp, rfl, rfl, hwords⟩
    · exact absurd h0 hneed
    · rw [hl] at hrem; exact absurd hrem (by decide)
    · refine ⟨rfl, hp, rfl, rfl, ?_⟩
      intro hnw k hk
      rw [hwords hnw, hdiv]
      simp [List.getElem?_map, List.getElem?_range, hk]

/-- Witness for C8: the specification's module, whose one-word info block at
`0x10408` holds `0x111`, in a remote and in a local address space. -/
theorem search_unwind_info_witness :
    (∃ r, _Uia64_search_unwind_table unwConsts ia64Hdr exBuild exMalloc
        (exRemote (exMem exHdrPlain)) (0x10000 + 150) exDi exPi 1 = Exec.done r
      ∧ r.ret = 0 ∧ r.pi.unwind_info_size = 8 ∧ r.pi.unwind_info = 0x5000
      ∧ r.mallocs = [0x5000] ∧ r.frees = [] ∧ r.words[0]? = some 0x111)
    ∧ (∃ r, _Uia64_search_unwind_table unwConsts ia64Hdr exBuild exMalloc
        (exLocal (exMem exHdrPlain)) (0x10000 + 150) exDi exPi 1 = Exec.done r
      ∧ r.ret = 0 ∧ r.pi.unwind_info_size = 8 ∧ r.pi.unwind_info = 0x10408
      ∧ r.mallocs = []) :=
  ⟨⟨_, rfl, rfl,
      (search_unwind_info unwConsts ia64Hdr exBuild exMalloc (exRemote (exMem exHdrPlain))
        (0x10000 + 150) exDi exPi 1 0 ⟨100, 200, 0x400⟩ _ 1 (by decide)
        (by unfold error_codes_positive; decide) (by unfold lookup_finds; decide) rfl rfl
        (by decide) (by decide)).2.1 (by decide),
      ((search_unwind_info unwConsts ia64Hdr exBuild exMalloc (exRemote (exMem exHdrPlain))
        (0x10000 + 150) exDi exPi 1 0 ⟨100, 200, 0x400⟩ _ 1 (by decide)
        (by unfold error_codes_positive; decide) (by unfold lookup_finds; decide) rfl rfl
        (by decide) (by decide)).2.2.2 (by decide)).1,
      ((search_unwind_info unwConsts ia64Hdr exBuild exMalloc (exRemote (exMem exHdrPlain))
        (0x10000 + 150) exDi exPi 1 0 ⟨100, 200, 0x400⟩ _ 1 (by decide)
        (by unfold error_codes_positive; decide) (by unfold lookup_finds; decide) rfl rfl
        (by decide) (by decide)).2.2.2 (by decide)).2.2.1,
      ((search_unwind_info unwConsts ia64Hdr exBuild exMalloc (exRemote (exMem exHdrPlain))
        (0x10000 + 150) exDi exPi 1 0 ⟨100, 200, 0x400⟩ _ 1 (by decide)
        (by unfold error_codes_positive; decide) (by unfold lookup_finds; decide) rfl rfl
        (by decide) (by decide)).2.2.2 (by decide)).2.2.2.1,
      ((search_unwind_info unwConsts ia64Hdr exBuild exMalloc (exRemote (exMem exHdrPlain))
        (0x10000 + 150) exDi exPi 1 0 ⟨100, 200, 0x400⟩ _ 1 (by decide)
        (by unfold error_codes_positive; decide) (by unfold lookup_finds; decide) rfl rfl
        (by decide) (by decide)).2.2.2 (by decide)).2.2.2.2 (by decide) 0 (by decide)⟩,
    ⟨_, rfl, rfl,
      (search_unwind_info unwConsts ia64Hdr exBuild exMalloc (exLocal (exMem exHdrPlain))
        (0x10000 + 150) exDi exPi 1 0 ⟨100, 200, 0x400⟩ _ 1 (by decide)
        (by unfold error_codes_positive; decide) (by unfold lookup_finds; decide) rfl rfl
        (by decide) (by decide)).2.1 (by decide),
      ((search_unwind_info unwConsts ia64Hdr exBuild exMalloc (exLocal (exMem exHdrPlain))
        (0x10000 + 150) exDi exPi 1 0 ⟨100, 200, 0x400⟩ _ 1 (by decide)
        (by unfold error_codes_positive; decide) (by unfold lookup_finds; decide) rfl rfl
        (by decide) (by decide)).2.2.1 (by decide)).1,
      ((search_unwind_info unwConsts ia64Hdr exBuild exMalloc (exLocal (exMem exHdrPlain))
        (0x10000 + 150) exDi exPi 1 0 ⟨100, 200, 0x400⟩ _ 1 (by decide)
        (by unfold error_codes_positive; decide) (by unfold lookup_finds; decide) rfl rfl
        (by decide) (by decide)).2.2.1 (by decide)).2⟩⟩

/-- Counterexample to C8 as stated, in two parts.  First: the header (version
1, no handler flag, length `L = 1`) lies at `2^64 - 16`, so
`info_addr = 2^64 - 8` and `info_end_addr` wraps to 0: in a remote address
space the call returns 0 with an 8-byte buffer into which the copy loop has
stored nothing, so word 0 of the buffer is not the word the accessor yields at
`info_addr`.  Second: with the header length `L = 2^29` in a local address
space, the `int` field `unwind_info_size` receives the low 32 bits of
`8 * L = 2^32`, that is 0, not `8 * L`. -/
theorem search_uncopied_buffer_counterexample :
    (lookup_finds 150 (exDiAt (2 ^ 64 - 16)) 0 ⟨100, 200, 2 ^ 64 - 16⟩
      ∧ ia64Hdr.IA64_UNW_LENGTH ((exRemote (exMemConst exHdrPlain)).access_mem
          (hdr_addr_of (exDiAt (2 ^ 64 - 16)) ⟨100, 200, 2 ^ 64 - 16⟩)).2 = 1
      ∧ is_local_addr_space exBuild (exRemote (exMemConst exHdrPlain)) = false
      ∧ info_addr_of (exDiAt (2 ^ 64 - 16)) ⟨100, 200, 2 ^ 64 - 16⟩ = 2 ^ 64 - 8
      ∧ ∃ r, _Uia64_search_unwind_table unwConsts ia64Hdr exBuild exMalloc
          (exRemote (exMemConst exHdrPlain)) 150 (exDiAt (2 ^ 64 - 16)) exPi 1 = Exec.done r
        ∧ r.ret = 0 ∧ r.pi.unwind_info = 0x5000 ∧ r.pi.unwind_info_size = 8
        ∧ r.reads = [2 ^ 64 - 16]
        ∧ r.words = []
        ∧ r.words[0]? ≠ some ((exRemote (exMemConst exHdrPlain)).access_mem
            (info_addr_of (exDiAt (2 ^ 64 - 16)) ⟨100, 200, 2 ^ 64 - 16⟩ + 8 * 0)).2)
    ∧ (lookup_finds (0x10000 + 150) exDi 0 ⟨100, 200, 0x400⟩
      ∧ ia64Hdr.IA64_UNW_LENGTH ((exLocal (exMem (2 ^ 48 + 2 ^ 29))).access_mem
          (hdr_addr_of exDi ⟨100, 200, 0x400⟩)).2 = 2 ^ 29
      ∧ is_local_addr_space exBuild (exLocal (exMem (2 ^ 48 + 2 ^ 29))) = true
      ∧ ∃ r, _Uia64_search_unwind_table unwConsts ia64Hdr exBuild exMalloc
          (exLocal (exMem (2 ^ 48 + 2 ^ 29))) (0x10000 + 150) exDi exPi 1 = Exec.done r
        ∧ r.ret = 0 ∧ r.pi.unwind_info = 0x10408 ∧ r.pi.unwind_info_size = 0
        ∧ r.pi.unwind_info_size ≠ ((8 * 2 ^ 29 : Nat) : Int)) := by
  constructor
  · refine ⟨by unfold lookup_finds; decide, by decide, by decide, by decide,
      _, rfl, ?_, ?_, ?_, ?_, ?_, ?_⟩ <;> decide
  · refine ⟨by unfold lookup_finds; decide, by decide, by decide,
      _, rfl, ?_, ?_, ?_, ?_⟩ <;> decide

/-- C9 fails on the code.  In a remote address space with `need_unwind_info`
set, a header with the exception-handler flag and a personality read at
`0x10418` that fails with `-1`: the call returns `-1` while the buffer it
obtained from `malloc` has not been freed.  When instead the read at `0x10408`
inside the copy loop fails, the buffer has been freed on return. -/
theorem search_leaks_buffer_on_personality_failure :
    (∃ r, _Uia64_search_unwind_table unwConsts ia64Hdr exBuild exMalloc
        (exRemote (exMemFail exHdrEh 0x10418 (-1))) (0x10000 + 150) exDi exPi 1
          = Exec.done r
      ∧ r.ret = -1 ∧ r.mallocs = [0x5000] ∧ r.frees = [] ∧ r.live = [0x5000])
    ∧ (∃ r, _Uia64_search_unwind_table unwConsts ia64Hdr exBuild exMalloc
        (exRemote (exMemFail exHdrEh 0x10408 (-1))) (0x10000 + 150) exDi exPi 1
          = Exec.done r
      ∧ r.ret = -1 ∧ r.mallocs = [0x5000] ∧ r.frees = [0x5000] ∧ r.live = []) := by
  constructor
  · refine ⟨_, rfl, ?_, ?_, ?_, ?_⟩ <;> decide
  · refine ⟨_, rfl, ?_, ?_, ?_, ?_⟩ <;> decide

/-- C10.  `tdep_put_unwind_info` leaves `*pi` unchanged and frees nothing when
`pi->unwind_info` is null or the address space is local; otherwise it frees
`pi->unwind_info` once and sets it to null, leaving the other fields as they
were. -/
theorem put_unwind_info_effect (b : Build) (as : unw_addr_space) (pi : unw_proc_info_t) :
    ((pi.unwind_info = 0 ∨ is_local_addr_space b as = true) →
      tdep_put_unwind_info b as pi = (pi, []))
    ∧ (pi.unwind_info ≠ 0 → is_local_addr_space b as = false →
      tdep_put_unwind_info b as pi = ({ pi with unwind_info := 0 }, [pi.unwind_info])) := by
  unfold tdep_put_unwind_info
  constructor
  · rintro (h | h)
    · rw [if_pos h]
    · by_cases h0 : pi.unwind_info = 0
      · rw [if_pos h0]
      · rw [if_neg h0, if_neg (by simp [h])]
  · intro h0 hl
    rw [if_neg h0, if_pos (by simp [hl])]

/-- Witness for C10: a borrowed pointer in a local address space is left as it
is, and an owned buffer in a remote one is freed and cleared. -/
theorem put_unwind_info_effect_witness :
    tdep_put_unwind_info exBuild (exLocal (exMem exHdrPlain)) exPi = (exPi, [])
    ∧ tdep_put_unwind_info exBuild (exRemote (exMem exHdrPlain)) exPi
        = ({ exPi with unwind_info := 0 }, [19]) :=
  ⟨(put_unwind_info_effect exBuild (exLocal (exMem exHdrPlain)) exPi).1
      (Or.inr (by decide)),
    (put_unwind_info_effect exBuild (exRemote (exMem exHdrPlain)) exPi).2
      (by decide) (by decide)⟩

/-! ### The dynamic-list scan -/

/-- The four reads of lines 208-211 are made at the header address plus 8, 16,
24 and 32. -/
theorem dyn_read_addr (h k : Nat) :
    ((h % WORD + 8) % WORD + k) % WORD = (h % WORD + (8 + k)) % WORD := by
  rw [WORD_eq]
  omega

/-- The result of `_Uia64_find_dyn_list` when the table has a first entry and
the header read succeeds: the offset word plus `gp` when every check passes and
the four further reads succeed, 0 otherwise. -/
theorem find_dyn_list_value (m : HdrMacros) (as : unw_addr_space)
    (table : List ia64_table_entry) (table_size segbase gp : Nat) (tab0 : ia64_table_entry)
    (htab : table[0]? = some tab0) (h0 : 0 ≤ (dyn_read as tab0 segbase 0).1) :
    ((dyn_list_valid m as table_size tab0 (dyn_read as tab0 segbase 0).2
          (dyn_read as tab0 segbase 8).2 (dyn_read as tab0 segbase 16).2
          (dyn_read as tab0 segbase 24).2
        ∧ 0 ≤ (dyn_read as tab0 segbase 8).1 ∧ 0 ≤ (dyn_read as tab0 segbase 16).1
        ∧ 0 ≤ (dyn_read as tab0 segbase 24).1 ∧ 0 ≤ (dyn_read as tab0 segbase 32).1) →
      _Uia64_find_dyn_list m as table table_size segbase gp
        = Exec.done (((dyn_read as tab0 segbase 32).2 + gp) % WORD))
    ∧ (¬ (dyn_list_valid m as table_size tab0 (dyn_read as tab0 segbase 0).2
          (dyn_read as tab0 segbase 8).2 (dyn_read as tab0 segbase 16).2
          (dyn_read as tab0 segbase 24).2
        ∧ 0 ≤ (dyn_read as tab0 segbase 8).1 ∧ 0 ≤ (dyn_read as tab0 segbase 16).1
        ∧ 0 ≤ (dyn_read as tab0 segbase 24).1 ∧ 0 ≤ (dyn_read as tab0 segbase 32).1) →
      _Uia64_find_dyn_list m as table table_size segbase gp = Exec.done 0) := by
  have e0 : ((tab0.info_offset + segbase) % WORD + 0) % WORD
      = (tab0.info_offset + segbase) % WORD := by
    rw [WORD_eq]; omega
  have e16 : (((tab0.info_offset + segbase) % WORD + 8) % WORD + 8) % WORD
      = ((tab0.info_offset + segbase) % WORD + 16) % WORD :=
    dyn_read_addr (tab0.info_offset + segbase) 8
  have e24 : (((tab0.info_offset + segbase) % WORD + 8) % WORD + 16) % WORD
      = ((tab0.info_offset + segbase) % WORD + 24) % WORD :=
    dyn_read_addr (tab0.info_offset + segbase) 16
  have e32 : (((tab0.info_offset + segbase) % WORD + 8) % WORD + 24) % WORD
      = ((tab0.info_offset + segbase) % WORD + 32) % WORD :=
    dyn_read_addr (tab0.info_offset + segbase) 24
  unfold dyn_list_valid dyn_read at *
  rw [e0] at h0
  have hn0 : ¬ (as.access_mem ((tab0.info_offset + segbase) % WORD)).1 < 0 :=
    Int.not_lt.mpr h0
  simp only [_Uia64_find_dyn_list, htab, e0, e16, e24, e32, hn0, if_false]
  constructor
  · rintro ⟨⟨h1, h2, h3, h4, h5, h6, h7, h8, h9⟩, r1, r2, r3, r4⟩
    have hsz : ¬ table_size < 24 := by omega
    rw [if_neg hsz, if_neg (by simpa using h2), if_neg (by simp [h3, h4, h5]),
      if_neg (by simpa using h6), if_neg (by omega), if_neg]
    rw [h7, h8, h9]
    cases hb : as.big_endian <;> simp
  · intro hnot
    by_cases hsz : table_size < 24
    · rw [if_pos hsz]
    rw [if_neg hsz]
    by_cases h2 : tab0.start_offset ≠ tab0.end_offset
    · rw [if_pos h2]
    rw [if_neg h2]
    split_ifs with h3 h6 hr h7
    · rfl
    · rfl
    · rfl
    · rfl
    · exfalso
      apply hnot
      simp only [not_or, not_and, Bool.not_eq_true, ne_eq, not_not, not_lt] at h2 h3 h6 hr h7
      obtain ⟨h3a, h3b, h3c⟩ := h3
      obtain ⟨h7a, h7b, h7c, h7d⟩ := h7
      obtain ⟨r1, r2, r3, r4⟩ := hr
      refine ⟨⟨by omega, h2, h3a, h3b, h3c, h6, h7a, h7b, ?_⟩, r1, r2, r3, r4⟩
      cases hb : as.big_endian
      · simpa using h7c hb
      · simpa using h7d hb

/-- C11.  For a table of at least one entry whose first entry `tab0` is
zero-length, when the five reads at the header address (`tab0.info_offset +
segbase`) plus 0, 8, 16, 24 and 32 succeed, the header has version 1, length 1
and no handler flag, the directive and personality words are 0 and the cookie
is the literal of the address space's byte order, `_Uia64_find_dyn_list`
returns the word at header + 32 plus `gp`, modulo `2^64`. -/
theorem find_dyn_list_found (m : HdrMacros) (as : unw_addr_space)
    (table : List ia64_table_entry) (table_size segbase gp : Nat) (tab0 : ia64_table_entry)
    (hsize : 24 ≤ table_size) (htab : table[0]? = some tab0)
    (hzero : tab0.start_offset = tab0.end_offset)
    (hr0 : 0 ≤ (dyn_read as tab0 segbase 0).1) (hr8 : 0 ≤ (dyn_read as tab0 segbase 8).1)
    (hr16 : 0 ≤ (dyn_read as tab0 segbase 16).1) (hr24 : 0 ≤ (dyn_read as tab0 segbase 24).1)
    (hr32 : 0 ≤ (dyn_read as tab0 segbase 32).1)
    (hver : m.IA64_UNW_VER (dyn_read as tab0 segbase 0).2 = 1)
    (hlen : m.IA64_UNW_LENGTH (dyn_read as tab0 segbase 0).2 = 1)
    (heh : m.IA64_UNW_FLAG_EHANDLER (dyn_read as tab0 segbase 0).2 = false)
    (huh : m.IA64_UNW_FLAG_UHANDLER (dyn_read as tab0 segbase 0).2 = false)
    (hdir : (dyn_read as tab0 segbase 8).2 = 0) (hpers : (dyn_read as tab0 segbase 16).2 = 0)
    (hcookie : (dyn_read as tab0 segbase 24).2
      = if as.big_endian = true then 0x64796e2d6c697374 else 0x7473696c2d6e7964) :
    _Uia64_find_dyn_list m as table table_size segbase gp
      = Exec.done (((dyn_read as tab0 segbase 32).2 + gp) % WORD) :=
  (find_dyn_list_value m as table table_size segbase gp tab0 htab hr0).1
    ⟨⟨hsize, hzero, hver, heh, huh, hlen, hdir, hpers, hcookie⟩, hr8, hr16, hr24, hr32⟩

/-- Witness for C11: the specification's scenario, table `[{0,0,H0}]` with
`H0 = 0x100`, little-endian cookie, offset `0x40` and `gp = 0x1000`; the scan
returns `0x1040`. -/
theorem find_dyn_list_found_witness :
    _Uia64_find_dyn_list ia64Hdr (exRemote (exDynMem cookie_le)) [⟨0, 0, 0x100⟩] 24 0 0x1000
      = Exec.done 0x1040 :=
  find_dyn_list_found ia64Hdr (exRemote (exDynMem cookie_le)) [⟨0, 0, 0x100⟩] 24 0 0x1000
    ⟨0, 0, 0x100⟩ (by decide) (by decide) (by decide) (by decide) (by decide) (by decide)
    (by decide) (by decide) (by decide) (by decide) (by decide) (by decide) (by decide)
    (by decide) (by decide)

/-- C13 fails on the code.  In the specification's canary scenario, when the
header read at `0x100` fails with `-1` the function returns `-1` converted to
`unw_word_t`, that is `2^64 - 1`, and not 0.  When instead one of the four
later reads fails (here the directive read at `0x108`, or the offset read at
`0x120`), it returns 0. -/
theorem find_dyn_list_header_read_failure :
    _Uia64_find_dyn_list ia64Hdr (exRemote (exDynMemFail cookie_le 0x100 (-1)))
        [⟨0, 0, 0x100⟩] 24 0 0x1000 = Exec.done (2 ^ 64 - 1)
    ∧ _Uia64_find_dyn_list ia64Hdr (exRemote (exDynMemFail cookie_le 0x100 (-1)))
        [⟨0, 0, 0x100⟩] 24 0 0x1000 ≠ Exec.done 0
    ∧ _Uia64_find_dyn_list ia64Hdr (exRemote (exDynMemFail cookie_le 0x108 (-1)))
        [⟨0, 0, 0x100⟩] 24 0 0x1000 = Exec.done 0
    ∧ _Uia64_find_dyn_list ia64Hdr (exRemote (exDynMemFail cookie_le 0x120 (-1)))
        [⟨0, 0, 0x100⟩] 24 0 0x1000 = Exec.done 0 := by
  refine ⟨?_, ?_, ?_, ?_⟩ <;> decide

/-! ### More on the lookup -/

/-- Whatever the table, an entry pointer returned by `lookup` points at an
entry that covers `rel_ip`. -/
theorem lookup_some_covers (table : List ia64_table_entry) (table_size rel_ip i : Nat)
    (h : lookup table table_size rel_ip = Exec.done (some i)) :
    ∃ e, table[i]? = some e ∧ covers e rel_ip := by
  unfold lookup at h
  cases hloop : lookup_loop table rel_ip (table_size / 24) 0 (table_size / 24) none with
  | abort => rw [hloop] at h; simp at h
  | fault => rw [hloop] at h; simp at h
  | timeout => rw [hloop] at h; simp at h
  | done r =>
    rw [hloop] at h
    cases r with
    | none => simp at h
    | some j =>
      simp only at h
      cases hj : table[j]? with
      | none => rw [hj] at h; simp at h
      | some ent =>
        rw [hj] at h
        simp only at h
        by_cases hc : rel_ip < ent.start_offset ∨ rel_ip ≥ ent.end_offset
        · rw [if_pos hc] at h; simp at h
        · rw [if_neg hc] at h
          have hij : j = i := Option.some.inj (Exec.done.inj h)
          subst hij
          refine ⟨ent, hj, ?_⟩
          unfold covers
          omega

/-- C18.  For every table, sorted or not, and every `rel_ip`: when `lookup`
returns the pointer to entry `i`, that entry satisfies
`start_offset ≤ rel_ip < end_offset`; in particular it is not a zero-length
entry. -/
theorem lookup_result_covers (table : List ia64_table_entry) (table_size rel_ip i : Nat)
    (h : lookup table table_size rel_ip = Exec.done (some i)) :
    ∃ e, table[i]? = some e ∧ e.start_offset ≤ rel_ip ∧ rel_ip < e.end_offset
      ∧ e.start_offset ≠ e.end_offset := by
  obtain ⟨e, he, h1, h2⟩ := lookup_some_covers table table_size rel_ip i h
  exact ⟨e, he, h1, h2, by omega⟩

/-- Witness for C18: an unsorted table headed by a zero-length entry; the
address 150 is found in entry 1. -/
theorem lookup_result_covers_witness :
    ∃ e, [(⟨300, 300, 1⟩ : ia64_table_entry), ⟨100, 200, 2⟩][1]? = some e
      ∧ e.start_offset ≤ 150 ∧ 150 < e.end_offset ∧ e.start_offset ≠ e.end_offset :=
  lookup_result_covers [⟨300, 300, 1⟩, ⟨100, 200, 2⟩] 48 150 1 (by decide)

/-- C19 fails on the code.  For a table of zero entries (`table_size < 24`) the
loop of `lookup` does not run, `e` is still the null pointer, and the test on
line 44 dereferences it: `lookup` does not return.  So a call of
`_Uia64_search_unwind_table` with `table_len < 3` that passes its assertion
does not return either. -/
theorem lookup_empty_table_faults (c : Consts) (m : HdrMacros) (b : Build)
    (malloc : Nat → Nat) (as : unw_addr_space) (ip : Nat) (di : unw_dyn_info_t)
    (pi : unw_proc_info_t) (need_unwind_info : Int) (table : List ia64_table_entry)
    (table_size rel_ip : Nat) :
    (table_size < 24 → lookup table table_size rel_ip = Exec.fault)
    ∧ (asserted c ip di → di.table_len < 3 →
        _Uia64_search_unwind_table c m b malloc as ip di pi need_unwind_info = Exec.fault) := by
  have hl : ∀ (t : List ia64_table_entry) (sz x : Nat), sz < 24 →
      lookup t sz x = Exec.fault := by
    intro t sz x hsz
    have h0 : sz / 24 = 0 := by omega
    simp [lookup, h0, lookup_loop]
  refine ⟨hl table table_size rel_ip, ?_⟩
  intro ha hlen
  unfold asserted at ha
  have hsz : di.table_len * 8 % WORD < 24 := by
    rw [WORD_eq]; omega
  simp only [_Uia64_search_unwind_table, ha, and_self, not_true_eq_false, if_false,
    hl di.table_data _ _ hsz]

/-- Witness for C19: the empty table, and the specification's module with
`table_len = 0`. -/
theorem lookup_empty_table_faults_witness :
    lookup [] 0 70 = Exec.fault
    ∧ _Uia64_search_unwind_table unwConsts ia64Hdr exBuild exMalloc
        (exRemote (exMem exHdrPlain)) (0x10000 + 150)
        { exDi with table_len := 0, table_data := [] } exPi 0 = Exec.fault :=
  ⟨(lookup_empty_table_faults unwConsts ia64Hdr exBuild exMalloc
      (exRemote (exMem exHdrPlain)) (0x10000 + 150)
      { exDi with table_len := 0, table_data := [] } exPi 0 [] 0 70).1 (by decide),
    (lookup_empty_table_faults unwConsts ia64Hdr exBuild exMalloc
      (exRemote (exMem exHdrPlain)) (0x10000 + 150)
      { exDi with table_len := 0, table_data := [] } exPi 0 [] 0 70).2
      (by unfold asserted; decide) (by decide)⟩

/-- C20.  A call that found the entry `e` and returned 0, with `ip` a 64-bit
value and `segbase + e.end_offset` below `2^64`, reports a range that contains
`ip`: `start_ip ≤ ip < end_ip`. -/
theorem search_range_contains_ip (c : Consts) (m : HdrMacros) (b : Build)
    (malloc : Nat → Nat) (as : unw_addr_space) (ip : Nat) (di : unw_dyn_info_t)
    (pi : unw_proc_info_t) (need_unwind_info : Int) (i : Nat) (e : ia64_table_entry)
    (r : Run) (hc : error_codes_positive c) (hf : lookup_finds ip di i e)
    (hrun : _Uia64_search_unwind_table c m b malloc as ip di pi need_unwind_info
      = Exec.done r)
    (hret : r.ret = 0) (hip : ip < WORD) (hno : di.segbase + e.end_offset < WORD) :
    r.pi.start_ip ≤ ip ∧ ip < r.pi.end_ip := by
  obtain ⟨_, _, P, rs, ms, ws, hr, hP⟩ :=
    success_path c m b malloc as ip di pi need_unwind_info i e r _ rfl hc hf hrun hret
  rw [hr] at hret
  obtain ⟨hpi, _⟩ := search_finish_ok m as di _ _ P rs ms ws hret
  rw [← hr] at hpi
  have hstart : P.start_ip = (e.start_offset + di.segbase) % WORD
      ∧ P.end_ip = (e.end_offset + di.segbase) % WORD := by
    rcases hP with ⟨_, rfl, _⟩ | ⟨_, _, rfl, _⟩ | ⟨_, _, _, rfl, _⟩ <;>
      exact ⟨by simp [pi_range], by simp [pi_range]⟩
  obtain ⟨e2, he2, hcov1, hcov2⟩ := lookup_some_covers _ _ _ _ hf.1
  have hee : e2 = e := Option.some.inj (he2.symm.trans hf.2)
  subst hee
  rw [hpi]
  show P.start_ip ≤ ip ∧ ip < P.end_ip
  rw [hstart.1, hstart.2]
  unfold rel_ip_of at hcov1 hcov2
  rw [WORD_eq] at hcov1 hcov2 hip hno ⊢
  omega

/-- Witness for C20: the specification's module queried at relative address
150. -/
theorem search_range_contains_ip_witness :
    ∃ r, _Uia64_search_unwind_table unwConsts ia64Hdr exBuild exMalloc
        (exRemote (exMem exHdrPlain)) (0x10000 + 150) exDi exPi 0 = Exec.done r
      ∧ r.pi.start_ip ≤ 0x10000 + 150 ∧ 0x10000 + 150 < r.pi.end_ip :=
  ⟨_, rfl,
    search_range_contains_ip unwConsts ia64Hdr exBuild exMalloc
      (exRemote (exMem exHdrPlain)) (0x10000 + 150) exDi exPi 0 0 ⟨100, 200, 0x400⟩ _
      (by unfold error_codes_positive; decide) (by unfold lookup_finds; decide) rfl rfl
      (by decide) (by decide)⟩

/-! ### The module locator -/

/-- After the scan `p_text` is null exactly when it was null before and no
header visited is a `PT_LOAD` segment containing `ip`. -/
theorem scan_text_none (E : ElfConsts) (load_base ip : Nat) (l : List Elf64_Phdr) :
    ∀ st : PhdrScan, (scan_phdrs E load_base ip l st).p_text = none ↔
      (st.p_text = none ∧ ∀ p, p ∈ l → ¬ is_text E load_base ip p) := by
  induction l with
  | nil => intro st; simp [scan_phdrs]
  | cons p rest ih =>
    intro st
    simp only [scan_phdrs]
    split_ifs with h1 h2 h3 h4
    · rw [ih]
      simp only [List.mem_cons, forall_eq_or_imp]
      constructor
      · intro h; exact absurd h.1 (by simp)
      · intro h; exact absurd ⟨h1, h2.1, h2.2⟩ h.2.1
    · rw [ih]
      simp only [List.mem_cons, forall_eq_or_imp]
      constructor
      · intro h; exact ⟨h.1, fun ht => h2 ⟨ht.2.1, ht.2.2⟩, h.2⟩
      · intro h; exact ⟨h.1, h.2.2⟩
    · rw [ih]
      simp only [List.mem_cons, forall_eq_or_imp]
      constructor
      · intro h; exact ⟨h.1, fun ht => h1 ht.1, h.2⟩
      · intro h; exact ⟨h.1, h.2.2⟩
    · rw [ih]
      simp only [List.mem_cons, forall_eq_or_imp]
      constructor
      · intro h; exact ⟨h.1, fun ht => h1 ht.1, h.2⟩
      · intro h; exact ⟨h.1, h.2.2⟩
    · rw [ih]
      simp only [List.mem_cons, forall_eq_or_imp]
      constructor
      · intro h; exact ⟨h.1, fun ht => h1 ht.1, h.2⟩
      · intro h; exact ⟨h.1, h.2.2⟩

/-- A non-null `p_text` after the scan is the one from before or a visited
`PT_LOAD` segment containing `ip`. -/
theorem scan_text_some (E : ElfConsts) (load_base ip : Nat) (l : List Elf64_Phdr) :
    ∀ (st : PhdrScan) (t : Elf64_Phdr), (scan_phdrs E load_base ip l st).p_text = some t →
      st.p_text = some t ∨ (t ∈ l ∧ is_text E load_base ip t) := by
  induction l with
  | nil => intro st t h; exact Or.inl h
  | cons p rest ih =>
    intro st t h
    simp only [scan_phdrs] at h
    split_ifs at h with h1 h2 h3 h4
    · rcases ih _ t h with h' | ⟨hm, ht⟩
      · right
        have : p = t := Option.some.inj h'
        subst this
        exact ⟨List.mem_cons_self _ _, h1, h2.1, h2.2⟩
      · exact Or.inr ⟨List.mem_cons_of_mem _ hm, ht⟩
    all_goals
      rcases ih _ t h with h' | ⟨hm, ht⟩
      · exact Or.inl h'
      · exact Or.inr ⟨List.mem_cons_of_mem _ hm, ht⟩

/-- After the scan `p_unwind` is null exactly when it was null before and no
header visited is a `PT_IA_64_UNWIND` segment. -/
theorem scan_unwind_none (E : ElfConsts) (load_base ip : Nat) (l : List Elf64_Phdr)
    (hdist : E.PT_LOAD ≠ E.PT_IA_64_UNWIND) :
    ∀ st : PhdrScan, (scan_phdrs E load_base ip l st).p_unwind = none ↔
      (st.p_unwind = none ∧ ∀ p, p ∈ l → p.p_type ≠ E.PT_IA_64_UNWIND) := by
  induction l with
  | nil => intro st; simp [scan_phdrs]
  | cons p rest ih =>
    intro st
    simp only [scan_phdrs]
    split_ifs with h1 h2 h3 h4
    · rw [ih]
      simp only [List.mem_cons, forall_eq_or_imp]
      constructor
      · intro h; exact ⟨h.1, fun hu => hdist (h1.symm.trans hu), h.2⟩
      · intro h; exact ⟨h.1, h.2.2⟩
    · rw [ih]
      simp only [List.mem_cons, forall_eq_or_imp]
      constructor
      · intro h; exact ⟨h.1, fun hu => hdist (h1.symm.trans hu), h.2⟩
      · intro h; exact ⟨h.1, h.2.2⟩
    · rw [ih]
      simp only [List.mem_cons, forall_eq_or_imp]
      constructor
      · intro h; exact absurd h.1 (by simp)
      · intro h; exact absurd h3 h.2.1
    · rw [ih]
      simp only [List.mem_cons, forall_eq_or_imp]
      constructor
      · intro h; exact ⟨h.1, h3, h.2⟩
      · intro h; exact ⟨h.1, h.2.2⟩
    · rw [ih]
      simp only [List.mem_cons, forall_eq_or_imp]
      constructor
      · intro h; exact ⟨h.1, h3, h.2⟩
      · intro h; exact ⟨h.1, h.2.2⟩

/-- A non-null `p_unwind` after the scan is the one from before or a visited
`PT_IA_64_UNWIND` segment. -/
theorem scan_unwind_some (E : ElfConsts) (load_base ip : Nat) (l : List Elf64_Phdr) :
    ∀ (st : PhdrScan) (u : Elf64_Phdr), (scan_phdrs E load_base ip l st).p_unwind = some u →
      st.p_unwind = some u ∨ (u ∈ l ∧ u.p_type = E.PT_IA_64_UNWIND) := by
  induction l with
  | nil => intro st u h; exact Or.inl h
  | cons p rest ih =>
    intro st u h
    simp only [scan_phdrs] at h
    split_ifs at h with h1 h2 h3 h4
    · rcases ih _ u h with h' | ⟨hm, hu⟩
      · exact Or.inl h'
      · exact Or.inr ⟨List.mem_cons_of_mem _ hm, hu⟩
    · rcases ih _ u h with h' | ⟨hm, hu⟩
      · exact Or.inl h'
      · exact Or.inr ⟨List.mem_cons_of_mem _ hm, hu⟩
    · rcases ih _ u h with h' | ⟨hm, hu⟩
      · right
        have : p = u := Option.some.inj h'
        subst this
        exact ⟨List.mem_cons_self _ _, h3⟩
      · exact Or.inr ⟨List.mem_cons_of_mem _ hm, hu⟩
    all_goals
      rcases ih _ u h with h' | ⟨hm, hu⟩
      · exact Or.inl h'
      · exact Or.inr ⟨List.mem_cons_of_mem _ hm, hu⟩

/-- A non-null `p_dynamic` after the scan is the one from before or a visited
`PT_DYNAMIC` segment. -/
theorem scan_dynamic_some (E : ElfConsts) (load_base ip : Nat) (l : List Elf64_Phdr) :
    ∀ (st : PhdrScan) (d : Elf64_Phdr), (scan_phdrs E load_base ip l st).p_dynamic = some d →
      st.p_dynamic = some d ∨ (d ∈ l ∧ d.p_type = E.PT_DYNAMIC) := by
  induction l with
  | nil => intro st d h; exact Or.inl h
  | cons p rest ih =>
    intro st d h
    simp only [scan_phdrs] at h
    split_ifs at h with h1 h2 h3 h4
    · rcases ih _ d h with h' | ⟨hm, hd⟩
      · exact Or.inl h'
      · exact Or.inr ⟨List.mem_cons_of_mem _ hm, hd⟩
    · rcases ih _ d h with h' | ⟨hm, hd⟩
      · exact Or.inl h'
      · exact Or.inr ⟨List.mem_cons_of_mem _ hm, hd⟩
    · rcases ih _ d h with h' | ⟨hm, hd⟩
      · exact Or.inl h'
      · exact Or.inr ⟨List.mem_cons_of_mem _ hm, hd⟩
    · rcases ih _ d h with h' | ⟨hm, hd⟩
      · right
        have : p = d := Option.some.inj h'
        subst this
        exact ⟨List.mem_cons_self _ _, h4⟩
      · exact Or.inr ⟨List.mem_cons_of_mem _ hm, hd⟩
    · rcases ih _ d h with h' | ⟨hm, hd⟩
      · exact Or.inl h'
      · exact Or.inr ⟨List.mem_cons_of_mem _ hm, hd⟩

/-- The scan of a dynamic section that holds a `DT_NULL` or a `DT_PLTGOT` entry
ends without an invalid read. -/
theorem scan_dynamic_done (E : ElfConsts) (l : List Elf64_Dyn) (h : dyn_terminated E l) :
    ∃ g, scan_dynamic E l = Exec.done g := by
  induction l with
  | nil =>
    obtain ⟨d, hd, _⟩ := h
    exact absurd hd (List.not_mem_nil d)
  | cons d rest ih =>
    simp only [scan_dynamic]
    by_cases h1 : d.d_tag ≠ E.DT_NULL
    · rw [if_pos h1]
      by_cases h2 : d.d_tag = E.DT_PLTGOT
      · rw [if_pos h2]; exact ⟨_, rfl⟩
      · rw [if_neg h2]
        apply ih
        obtain ⟨x, hx, hx2⟩ := h
        rcases List.mem_cons.mp hx with rfl | hm
        · rcases hx2 with h3 | h3
          · exact absurd h3 h1
          · exact absurd h3 h2
        · exact ⟨x, hm, hx2⟩
    · rw [if_neg h1]; exact ⟨_, rfl⟩

/-- C15.  For a module `info` passed to `callback` with a large-enough `size`
(the segment-type constants `PT_LOAD` and `PT_IA_64_UNWIND` being distinct and
every dynamic section of the module being terminated), with
`ip = di->u.ti.segbase`: the callback returns 1 or 0, and 0 leaves `*di`
unchanged; it returns 1 exactly when the module has a `PT_LOAD` segment with
`p_vaddr + load_base ≤ ip < p_vaddr + load_base + p_memsz` (64-bit sums) and a
`PT_IA_64_UNWIND` segment; and when it returns 1 there are such a text segment
`t` and unwind segment `u` with `format` the table format,
`start_ip = segbase = t.p_vaddr + load_base`, `end_ip = start_ip + t.p_memsz`,
`table_data = u.p_vaddr + load_base`, `table_len = u.p_memsz / 8` and
`start_ip ≤ ip < end_ip`. -/
theorem callback_found_iff (c : Consts) (E : ElfConsts) (gp_reg : Nat)
    (dyn_at : Nat → List Elf64_Dyn) (info : dl_phdr_info) (size : Nat) (di : dyn_info_raw)
    (hsize : E.MIN_INFO_SIZE ≤ size) (hdist : E.PT_LOAD ≠ E.PT_IA_64_UNWIND)
    (hdyn : ∀ d, d ∈ info.dlpi_phdr → d.p_type = E.PT_DYNAMIC →
      dyn_terminated E (dyn_at ((d.p_vaddr + info.dlpi_addr) % WORD))) :
    ∃ ret di1, callback c E gp_reg dyn_at info size di = Exec.done (ret, di1)
      ∧ (ret = 1 ∨ (ret = 0 ∧ di1 = di))
      ∧ (ret = 1 ↔
          ((∃ t, t ∈ info.dlpi_phdr ∧ is_text E info.dlpi_addr di.segbase t)
            ∧ (∃ u, u ∈ info.dlpi_phdr ∧ u.p_type = E.PT_IA_64_UNWIND)))
      ∧ (ret = 1 → ∃ t u, t ∈ info.dlpi_phdr ∧ is_text E info.dlpi_addr di.segbase t
          ∧ u ∈ info.dlpi_phdr ∧ u.p_type = E.PT_IA_64_UNWIND
          ∧ di1.format = c.UNW_INFO_FORMAT_TABLE
          ∧ di1.start_ip = (t.p_vaddr + info.dlpi_addr) % WORD
          ∧ di1.segbase = (t.p_vaddr + info.dlpi_addr) % WORD
          ∧ di1.end_ip = (di1.start_ip + t.p_memsz) % WORD
          ∧ di1.table_data = (u.p_vaddr + info.dlpi_addr) % WORD
          ∧ di1.table_len = u.p_memsz / 8
          ∧ di1.start_ip ≤ di.segbase ∧ di.segbase < di1.end_ip) := by
  have hsz : ¬ size < E.MIN_INFO_SIZE := by omega
  have hnt := scan_text_none E info.dlpi_addr di.segbase info.dlpi_phdr
    { p_text := none, p_unwind := none, p_dynamic := none }
  have hnu := scan_unwind_none E info.dlpi_addr di.segbase info.dlpi_phdr hdist
    { p_text := none, p_unwind := none, p_dynamic := none }
  cases ht : (scan_phdrs E info.dlpi_addr di.segbase info.dlpi_phdr
      { p_text := none, p_unwind := none, p_dynamic := none }).p_text with
  | none =>
    refine ⟨0, di, ?_, Or.inr ⟨rfl, rfl⟩, ?_, fun h => absurd h (by decide)⟩
    · simp only [callback, if_neg hsz, ht]
    · have hno := (hnt.mp ht).2
      constructor
      · intro h; exact absurd h (by decide)
      · rintro ⟨⟨t, htm, htt⟩, _⟩; exact absurd htt (hno t htm)
  | some t =>
    cases hu : (scan_phdrs E info.dlpi_addr di.segbase info.dlpi_phdr
        { p_text := none, p_unwind := none, p_dynamic := none }).p_unwind with
    | none =>
      refine ⟨0, di, ?_, Or.inr ⟨rfl, rfl⟩, ?_, fun h => absurd h (by decide)⟩
      · simp only [callback, if_neg hsz, ht, hu]
      · have hno := (hnu.mp hu).2
        constructor
        · intro h; exact absurd h (by decide)
        · rintro ⟨_, u, hum, huu⟩; exact absurd huu (hno u hum)
    | some u =>
      have htt : t ∈ info.dlpi_phdr ∧ is_text E info.dlpi_addr di.segbase t := by
        rcases scan_text_some E _ _ _ _ t ht with h | h
        · simp at h
        · exact h
      have huu : u ∈ info.dlpi_phdr ∧ u.p_type = E.PT_IA_64_UNWIND := by
        rcases scan_unwind_some E _ _ _ _ u hu with h | h
        · simp at h
        · exact h
      have hend : ∀ x : Nat, (t.p_vaddr + info.dlpi_addr + x) % WORD
          = ((t.p_vaddr + info.dlpi_addr) % WORD + x) % WORD := by
        intro x; rw [WORD_eq]; omega
      have hfields : ∀ gp : Nat, ∃ di1 : dyn_info_raw,
          di1 = { format := c.UNW_INFO_FORMAT_TABLE,
                  start_ip := (t.p_vaddr + info.dlpi_addr) % WORD,
                  end_ip := (t.p_vaddr + info.dlpi_addr + t.p_memsz) % WORD,
                  gp := gp, name_ptr := info.dlpi_name,
                  segbase := (t.p_vaddr + info.dlpi_addr) % WORD,
                  table_len := u.p_memsz / 8,
                  table_data := (u.p_vaddr + info.dlpi_addr) % WORD }
          ∧ ((1 : Int) = 1 ∨ ((1 : Int) = 0 ∧ di1 = di))
          ∧ ((1 : Int) = 1 ↔
              ((∃ t, t ∈ info.dlpi_phdr ∧ is_text E info.dlpi_addr di.segbase t)
                ∧ (∃ u, u ∈ info.dlpi_phdr ∧ u.p_type = E.PT_IA_64_UNWIND)))
          ∧ ((1 : Int) = 1 → ∃ t u, t ∈ info.dlpi_phdr
              ∧ is_text E info.dlpi_addr di.segbase t
              ∧ u ∈ info.dlpi_phdr ∧ u.p_type = E.PT_IA_64_UNWIND
              ∧ di1.format = c.UNW_INFO_FORMAT_TABLE
              ∧ di1.start_ip = (t.p_vaddr + info.dlpi_addr) % WORD
              ∧ di1.segbase = (t.p_vaddr + info.dlpi_addr) % WORD
              ∧ di1.end_ip = (di1.start_ip + t.p_memsz) % WORD
              ∧ di1.table_data = (u.p_vaddr + info.dlpi_addr) % WORD
              ∧ di1.table_len = u.p_memsz / 8
              ∧ di1.start_ip ≤ di.segbase ∧ di.segbase < di1.end_ip) := by
        intro gp
        refine ⟨_, rfl, Or.inl rfl, ⟨fun _ => ⟨⟨t, htt⟩, ⟨u, huu⟩⟩, fun _ => rfl⟩, fun _ => ?_⟩
        refine ⟨t, u, htt.1, htt.2, huu.1, huu.2, rfl, rfl, rfl, hend _, rfl, rfl, ?_, ?_⟩
        · exact htt.2.2.1
        · show di.segbase < (t.p_vaddr + info.dlpi_addr + t.p_memsz) % WORD
          rw [hend]; exact htt.2.2.2
      cases hd : (scan_phdrs E info.dlpi_addr di.segbase info.dlpi_phdr
          { p_text := none, p_unwind := none, p_dynamic := none }).p_dynamic with
      | none =>
        obtain ⟨di1, hdi1, hrest⟩ := hfields gp_reg
        refine ⟨1, di1, ?_, hrest⟩
        simp only [callback, if_neg hsz, ht, hu, hd, hdi1]
      | some d =>
        have hdd : d ∈ info.dlpi_phdr ∧ d.p_type = E.PT_DYNAMIC := by
          rcases scan_dynamic_some E _ _ _ _ d hd with h | h
          · simp at h
          · exact h
        obtain ⟨g, hg⟩ := scan_dynamic_done E _ (hdyn d hdd.1 hdd.2)
        cases g with
        | none =>
          obtain ⟨di1, hdi1, hrest⟩ := hfields di.gp
          refine ⟨1, di1, ?_, hrest⟩
          simp only [callback, if_neg hsz, ht, hu, hd, hg, hdi1]
        | some gp =>
          obtain ⟨di1, hdi1, hrest⟩ := hfields gp
          refine ⟨1, di1, ?_, hrest⟩
          simp only [callback, if_neg hsz, ht, hu, hd, hg, hdi1]

/-- Witness for C15: `exModule` queried at `0x14100`, inside its text
segment. -/
theorem callback_found_iff_witness :
    ∃ di1, callback unwConsts elfConsts 0x999 (fun _ => []) exModule 64 (exRaw 0x14100)
        = Exec.done (1, di1)
      ∧ di1.start_ip ≤ 0x14100 ∧ 0x14100 < di1.end_ip := by
  obtain ⟨ret, di1, hrun, _, hiff, hfound⟩ :=
    callback_found_iff unwConsts elfConsts 0x999 (fun _ => []) exModule 64 (exRaw 0x14100)
      (by decide) (by decide)
      (by
        intro d hd ht
        simp only [exModule, List.mem_cons, List.mem_singleton, List.not_mem_nil,
          or_false] at hd
        rcases hd with rfl | rfl <;> simp [elfConsts] at ht)
  have h1 : ret = 1 :=
    hiff.mpr ⟨⟨⟨1, 0x4000, 0x2000⟩, by decide, by unfold is_text; decide⟩,
      ⟨⟨0x70000001, 0x8000, 0x30⟩, by decide, by decide⟩⟩
  subst h1
  obtain ⟨t, u, _, _, _, _, _, _, _, _, _, _, h3, h4⟩ := hfound rfl
  exact ⟨di1, hrun, h3, h4⟩

/-! ### The kernel table -/

/-- The relocation loop passes the entries with a non-zero `start_offset`,
relocating each, and stops at the first entry whose `start_offset` is 0. -/
theorem reloc_loop_spec (ktab : Nat) (s : ia64_table_entry) (rest : List ia64_table_entry)
    (hs : s.start_offset = 0) :
    ∀ es : List ia64_table_entry, (∀ e, e ∈ es → e.start_offset ≠ 0) →
      reloc_loop ktab (es ++ s :: rest) = Exec.done (es.map (relocate ktab), s :: rest) := by
  intro es
  induction es with
  | nil => intro _; simp [reloc_loop, hs]
  | cons e es ih =>
    intro hes
    have he : e.start_offset ≠ 0 := hes e (List.mem_cons_self _ _)
    have ih2 := ih (fun x hx => hes x (List.mem_cons_of_mem _ hx))
    have ih3 : reloc_loop ktab (es.append (s :: rest))
        = Exec.done (es.map (relocate ktab), s :: rest) := ih2
    simp only [List.cons_append, reloc_loop, if_pos he, ih3, List.map_cons]

/-- C17, as amended.  For a kernel table of `n ≥ 1` entries `es` with non-zero
`start_offset` followed by a sentinel `s` with `start_offset = 0`, and a
successful allocation at `ktab`: the call returns 0; the buffer holds the `n`
entries with `ktab` added to each `info_offset` (modulo `2^64`, the other
fields as they were) followed by the untouched sentinel; and the descriptor
has the table format, `gp = 0`, `segbase = 0`, `start_ip` the first entry's
`start_offset`, `end_ip` the last entry's `end_offset` and `table_len = 3 * n`,
which the table search turns into `n` entries. -/
theorem get_kernel_table_relocates (c : Consts) (k : Kernel) (di : dyn_info_raw)
    (es : List ia64_table_entry) (s : ia64_table_entry)
    (htab : k.table = es ++ [s]) (hne : es ≠ [])
    (hes : ∀ e, e ∈ es → e.start_offset ≠ 0) (hs : s.start_offset = 0)
    (halloc : k.sos_alloc k.getunwind_size ≠ 0) :
    ∃ first last, es.head? = some first ∧ es.getLast? = some last
      ∧ _Uia64_get_kernel_table c k di = Exec.done (0,
          { format := c.UNW_INFO_FORMAT_TABLE, gp := 0, start_ip := first.start_offset,
            end_ip := last.end_offset, name_ptr := k.name_ptr, segbase := 0,
            table_len := 3 * es.length, table_data := k.sos_alloc k.getunwind_size },
          es.map (relocate (k.sos_alloc k.getunwind_size)) ++ [s])
      ∧ (∀ e, (relocate (k.sos_alloc k.getunwind_size) e).start_offset = e.start_offset
          ∧ (relocate (k.sos_alloc k.getunwind_size) e).end_offset = e.end_offset
          ∧ (relocate (k.sos_alloc k.getunwind_size) e).info_offset
              = (e.info_offset + k.sos_alloc k.getunwind_size) % WORD)
      ∧ (24 * es.length < WORD → (3 * es.length * 8) % WORD / 24 = es.length) := by
  obtain ⟨init, last, hlast⟩ : ∃ init last, es = init ++ [last] := by
    rcases List.eq_nil_or_concat es with h | ⟨init, last, h⟩
    · exact absurd h hne
    · exact ⟨init, last, by rw [h, List.concat_eq_append]⟩
  obtain ⟨first, tl, hfirst⟩ : ∃ first tl, es = first :: tl := by
    cases es with
    | nil => exact absurd rfl hne
    | cons a l => exact ⟨a, l, rfl⟩
  have hloop := reloc_loop_spec (k.sos_alloc k.getunwind_size) s [] hs es hes
  have h0 : (es.map (relocate (k.sos_alloc k.getunwind_size)) ++ [s])[0]?
      = some (relocate (k.sos_alloc k.getunwind_size) first) := by
    rw [hfirst]; simp
  have hl : (es.map (relocate (k.sos_alloc k.getunwind_size))).getLast?
      = some (relocate (k.sos_alloc k.getunwind_size) last) := by
    rw [hlast]; simp
  have hlen : 24 * (es.map (relocate (k.sos_alloc k.getunwind_size))).length / 8
      = 3 * es.length := by
    rw [List.length_map]; omega
  refine ⟨first, last, by rw [hfirst]; rfl, by rw [hlast]; simp, ?_,
    fun e => ⟨rfl, rfl, rfl⟩, ?_⟩
  · simp only [_Uia64_get_kernel_table, if_neg halloc, htab, hloop, h0, hl, hlen]
    rfl
  · intro hfit
    rw [Nat.mod_eq_of_lt (by omega)]
    omega

/-- Witness for C17: a kernel table of two entries and a sentinel, relocated
to the buffer at `0x9000`. -/
theorem get_kernel_table_relocates_witness :
    _Uia64_get_kernel_table unwConsts
        (exKernel [⟨0x100, 0x200, 0x10⟩, ⟨0x200, 0x300, 0x20⟩, ⟨0, 0, 0⟩] 0x9000)
        (exRaw 0)
      = Exec.done (0,
          { format := 1, gp := 0, start_ip := 0x100, end_ip := 0x300, name_ptr := 0x88,
            segbase := 0, table_len := 6, table_data := 0x9000 },
          [⟨0x100, 0x200, 0x9010⟩, ⟨0x200, 0x300, 0x9020⟩, ⟨0, 0, 0⟩]) := by
  obtain ⟨first, last, h1, h2, hrun, _⟩ :=
    get_kernel_table_relocates unwConsts
      (exKernel [⟨0x100, 0x200, 0x10⟩, ⟨0x200, 0x300, 0x20⟩, ⟨0, 0, 0⟩] 0x9000) (exRaw 0)
      [⟨0x100, 0x200, 0x10⟩, ⟨0x200, 0x300, 0x20⟩] ⟨0, 0, 0⟩ rfl (by decide)
      (by
        intro e he
        simp only [List.mem_cons, List.mem_singleton, List.not_mem_nil, or_false] at he
        rcases he with rfl | rfl <;> decide)
      rfl (by decide)
  rw [hrun]
  have e1 : first = ⟨0x100, 0x200, 0x10⟩ := (Option.some.inj h1).symm
  have e2 : last = ⟨0x200, 0x300, 0x20⟩ := (Option.some.inj h2).symm
  subst e1 e2
  decide

/-- Counterexample to C17 as stated, at `n = 0`.  When the kernel table is the
sentinel alone, the loop passes no entry and line 284 reads `etab[-1]`, the
entry before the buffer: the call does not return a descriptor. -/
theorem get_kernel_table_empty_counterexample :
    (exKernel [⟨0, 0, 0⟩] 0x9000).table = ([] : List ia64_table_entry) ++ [⟨0, 0, 0⟩]
    ∧ (exKernel [⟨0, 0, 0⟩] 0x9000).sos_alloc (exKernel [⟨0, 0, 0⟩] 0x9000).getunwind_size ≠ 0
    ∧ _Uia64_get_kernel_table unwConsts (exKernel [⟨0, 0, 0⟩] 0x9000) (exRaw 0) = Exec.fault
    ∧ ∀ r, _Uia64_get_kernel_table unwConsts (exKernel [⟨0, 0, 0⟩] 0x9000) (exRaw 0)
        ≠ Exec.done r := by
  refine ⟨rfl, by decide, by decide, ?_⟩
  intro r h
  have hf : _Uia64_get_kernel_table unwConsts (exKernel [⟨0, 0, 0⟩] 0x9000) (exRaw 0)
      = Exec.fault := by decide
  rw [hf] at h
  exact Exec.noConfusion h

/-! ### Finding the descriptor -/

/-- With a successful allocation and a kernel table of at least one entry
followed by a sentinel, `_Uia64_get_kernel_table` returns 0 with the relocated
table in the buffer and the buffer's address in `table_data`. -/
theorem get_kernel_table_done (c : Consts) (k : Kernel) (di : dyn_info_raw)
    (es : List ia64_table_entry) (s : ia64_table_entry)
    (htab : k.table = es ++ [s]) (hne : es ≠ [])
    (hes : ∀ e, e ∈ es → e.start_offset ≠ 0) (hs : s.start_offset = 0)
    (halloc : k.sos_alloc k.getunwind_size ≠ 0) :
    ∃ kt, _Uia64_get_kernel_table c k di
        = Exec.done (0, kt, es.map (relocate (k.sos_alloc k.getunwind_size)) ++ [s])
      ∧ kt.table_data = k.sos_alloc k.getunwind_size := by
  obtain ⟨init, last, hlast⟩ : ∃ init last, es = init ++ [last] := by
    rcases List.eq_nil_or_concat es with h | ⟨init, last, h⟩
    · exact absurd h hne
    · exact ⟨init, last, by rw [h, List.concat_eq_append]⟩
  obtain ⟨first, tl, hfirst⟩ : ∃ first tl, es = first :: tl := by
    cases es with
    | nil => exact absurd rfl hne
    | cons a l => exact ⟨a, l, rfl⟩
  have hloop := reloc_loop_spec (k.sos_alloc k.getunwind_size) s [] hs es hes
  have h0 : (es.map (relocate (k.sos_alloc k.getunwind_size)) ++ [s])[0]?
      = some (relocate (k.sos_alloc k.getunwind_size) first) := by
    rw [hfirst]; simp
  have hl : (es.map (relocate (k.sos_alloc k.getunwind_size))).getLast?
      = some (relocate (k.sos_alloc k.getunwind_size) last) := by
    rw [hlast]; simp
  refine ⟨{ format := c.UNW_INFO_FORMAT_TABLE, gp := 0,
            start_ip := (relocate (k.sos_alloc k.getunwind_size) first).start_offset,
            end_ip := (relocate (k.sos_alloc k.getunwind_size) last).end_offset,
            name_ptr := k.name_ptr, segbase := 0,
            table_len := 24 * (es.map (relocate (k.sos_alloc k.getunwind_size))).length / 8,
            table_data := k.sos_alloc k.getunwind_size }, ?_, rfl⟩
  simp only [_Uia64_get_kernel_table, if_neg halloc, htab, hloop, h0, hl]

/-- C16.  When `sos_alloc` fails, `_Uia64_get_kernel_table` returns
`-UNW_ENOMEM` and leaves `*di` as it was.  So a call of `tdep_find_proc_info`
that finds no module while the static kernel table's `table_data` is null
returns `-UNW_ENOMEM` with the static kernel table unchanged, `table_data`
still null.  A later call made in that state (no module found) retrieves the
table anew: whatever descriptor `kt` and buffer `buf` the call of
`_Uia64_get_kernel_table` on the static kernel table then yields with a
non-negative return value, the call stores them as the static kernel table and
decides by `kt` alone between `-UNW_ENOINFO` and the table search on `kt`; in
particular, with a working allocator and a kernel table of at least one entry
followed by a sentinel, the static kernel table ends up pointing at the
buffer that holds the relocated table. -/
theorem get_kernel_table_alloc_failure (c : Consts) (E : ElfConsts) (gp_reg : Nat)
    (dyn_at : Nat → List Elf64_Dyn) (size : Nat) (k : Kernel) (cache : KernelCache)
    (di : dyn_info_raw) (halloc : k.sos_alloc k.getunwind_size = 0) :
    _Uia64_get_kernel_table c k di = Exec.done (-c.UNW_ENOMEM, di, [])
    ∧ (∀ (modules : List dl_phdr_info) (ip : Nat) (di0 : dyn_info_raw) (found : Int)
        (dif : dyn_info_raw),
        dl_iterate_phdr (callback c E gp_reg dyn_at) size modules { di0 with segbase := ip }
          = Exec.done (found, dif) →
        found ≤ 0 → cache.kernel_table.table_data = 0 → 0 < c.UNW_ENOMEM →
        tdep_find_proc_info c E gp_reg dyn_at modules size k cache ip di0
          = Exec.done { outcome := FindOutcome.ret (-c.UNW_ENOMEM), cache := cache,
                        retrievals := 1 })
    ∧ (∀ (modules : List dl_phdr_info) (k2 : Kernel) (ip : Nat) (di0 : dyn_info_raw)
        (found : Int) (dif : dyn_info_raw) (ret : Int) (kt : dyn_info_raw)
        (buf : List ia64_table_entry),
        dl_iterate_phdr (callback c E gp_reg dyn_at) size modules { di0 with segbase := ip }
          = Exec.done (found, dif) →
        found ≤ 0 → cache.kernel_table.table_data = 0 →
        _Uia64_get_kernel_table c k2 cache.kernel_table = Exec.done (ret, kt, buf) →
        0 ≤ ret →
        tdep_find_proc_info c E gp_reg dyn_at modules size k2 cache ip di0
          = Exec.done
              { outcome :=
                  if ip < kt.start_ip ∨ ip ≥ kt.end_ip then FindOutcome.ret (-c.UNW_ENOINFO)
                  else FindOutcome.search kt,
                cache := { kernel_table := kt, buffer := buf }, retrievals := 1 })
    ∧ (∀ (modules : List dl_phdr_info) (k2 : Kernel) (ip : Nat) (di0 : dyn_info_raw)
        (found : Int) (dif : dyn_info_raw) (es : List ia64_table_entry)
        (s : ia64_table_entry),
        dl_iterate_phdr (callback c E gp_reg dyn_at) size modules { di0 with segbase := ip }
          = Exec.done (found, dif) →
        found ≤ 0 → cache.kernel_table.table_data = 0 →
        k2.table = es ++ [s] → es ≠ [] → (∀ e, e ∈ es → e.start_offset ≠ 0) →
        s.start_offset = 0 → k2.sos_alloc k2.getunwind_size ≠ 0 →
        ∃ r, tdep_find_proc_info c E gp_reg dyn_at modules size k2 cache ip di0
            = Exec.done r
          ∧ r.cache.kernel_table.table_data = k2.sos_alloc k2.getunwind_size
          ∧ r.cache.kernel_table.table_data ≠ 0
          ∧ r.cache.buffer = es.map (relocate (k2.sos_alloc k2.getunwind_size)) ++ [s])
    ∧ (∀ (modules : List dl_phdr_info) (k2 : Kernel) (ip : Nat) (di0 : dyn_info_raw)
        (found : Int) (dif : dyn_info_raw) (r : FindRun),
        dl_iterate_phdr (callback c E gp_reg dyn_at) size modules { di0 with segbase := ip }
          = Exec.done (found, dif) →
        found ≤ 0 → cache.kernel_table.table_data = 0 →
        tdep_find_proc_info c E gp_reg dyn_at modules size k2 cache ip di0 = Exec.done r →
        r.retrievals = 1) := by
  have hget : ∀ d : dyn_info_raw,
      _Uia64_get_kernel_table c k d = Exec.done (-c.UNW_ENOMEM, d, []) := by
    intro d
    simp only [_Uia64_get_kernel_table, halloc, if_true]
  have hnew : ∀ (modules : List dl_phdr_info) (k2 : Kernel) (ip : Nat) (di0 : dyn_info_raw)
      (found : Int) (dif : dyn_info_raw) (ret : Int) (kt : dyn_info_raw)
      (buf : List ia64_table_entry),
      dl_iterate_phdr (callback c E gp_reg dyn_at) size modules { di0 with segbase := ip }
        = Exec.done (found, dif) →
      found ≤ 0 → cache.kernel_table.table_data = 0 →
      _Uia64_get_kernel_table c k2 cache.kernel_table = Exec.done (ret, kt, buf) →
      0 ≤ ret →
      tdep_find_proc_info c E gp_reg dyn_at modules size k2 cache ip di0
        = Exec.done
            { outcome :=
                if ip < kt.start_ip ∨ ip ≥ kt.end_ip then FindOutcome.ret (-c.UNW_ENOINFO)
                else FindOutcome.search kt,
              cache := { kernel_table := kt, buffer := buf }, retrievals := 1 } := by
    intro modules k2 ip di0 found dif ret kt buf hdl hnf hnull hk hret
    have hneg : ¬ ret < 0 := by omega
    simp only [tdep_find_proc_info, hdl, if_pos hnf, if_pos hnull, hk, if_neg hneg]
    by_cases hout : ip < kt.start_ip ∨ ip ≥ kt.end_ip
    · rw [if_pos hout, if_pos hout]
    · rw [if_neg hout, if_neg hout]
  refine ⟨hget di, ?_, hnew, ?_, ?_⟩
  · intro modules ip di0 found dif hdl hnf hnull hpos
    have hneg : -c.UNW_ENOMEM < 0 := by omega
    simp only [tdep_find_proc_info, hdl, if_pos hnf, if_pos hnull, hget, if_pos hneg]
  · intro modules k2 ip di0 found dif es s hdl hnf hnull htab hne hes hs hal
    obtain ⟨kt, hk, hptr⟩ :=
      get_kernel_table_done c k2 cache.kernel_table es s htab hne hes hs hal
    refine ⟨_, hnew modules k2 ip di0 found dif 0 kt _ hdl hnf hnull hk (le_refl _), ?_, ?_,
      rfl⟩
    · exact hptr
    · show kt.table_data ≠ 0
      rw [hptr]; exact hal
  · intro modules k2 ip di0 found dif r hdl hnf hnull hrun
    simp only [tdep_find_proc_info, hdl, if_pos hnf, if_pos hnull] at hrun
    cases hk : _Uia64_get_kernel_table c k2 cache.kernel_table with
    | abort => rw [hk] at hrun; simp at hrun
    | fault => rw [hk] at hrun; simp at hrun
    | timeout => rw [hk] at hrun; simp at hrun
    | done x =>
      obtain ⟨ret, kt, buf⟩ := x
      rw [hk] at hrun
      simp only at hrun
      split_ifs at hrun <;>
      · have := Exec.done.inj hrun
        subst this
        rfl

/-- Witness for C16: no module loaded and the static kernel table still all
zero.  The first call meets a failing allocator and leaves the static kernel
table all zero; the next call, made in that state with a working allocator,
retrieves the kernel table `[0x100, 0x200)`, stores it, and goes on to search
it for `ip = 0x150`. -/
theorem get_kernel_table_alloc_failure_witness :
    tdep_find_proc_info unwConsts elfConsts 0x999 (fun _ => []) [] 64
        (exKernel [⟨0x100, 0x200, 0x10⟩, ⟨0, 0, 0⟩] 0) exCacheEmpty 0x150 (exRaw 0)
      = Exec.done { outcome := FindOutcome.ret (-unwConsts.UNW_ENOMEM),
                    cache := exCacheEmpty, retrievals := 1 }
    ∧ tdep_find_proc_info unwConsts elfConsts 0x999 (fun _ => []) [] 64
        (exKernel [⟨0x100, 0x200, 0x10⟩, ⟨0, 0, 0⟩] 0x9000) exCacheEmpty 0x150 (exRaw 0)
      = Exec.done
          { outcome := FindOutcome.search
              { format := 1, gp := 0, start_ip := 0x100, end_ip := 0x200, name_ptr := 0x88,
                segbase := 0, table_len := 3, table_data := 0x9000 },
            cache :=
              { kernel_table :=
                  { format := 1, gp := 0, start_ip := 0x100, end_ip := 0x200,
                    name_ptr := 0x88, segbase := 0, table_len := 3, table_data := 0x9000 },
                buffer := [⟨0x100, 0x200, 0x9010⟩, ⟨0, 0, 0⟩] },
            retrievals := 1 } :=
  ⟨(get_kernel_table_alloc_failure unwConsts elfConsts 0x999 (fun _ => []) 64
      (exKernel [⟨0x100, 0x200, 0x10⟩, ⟨0, 0, 0⟩] 0) exCacheEmpty (exRaw 0) rfl).2.1
      [] 0x150 (exRaw 0) 0 _ rfl (by decide) rfl (by decide),
    (get_kernel_table_alloc_failure unwConsts elfConsts 0x999 (fun _ => []) 64
      (exKernel [⟨0x100, 0x200, 0x10⟩, ⟨0, 0, 0⟩] 0) exCacheEmpty (exRaw 0) rfl).2.2.1
      [] (exKernel [⟨0x100, 0x200, 0x10⟩, ⟨0, 0, 0⟩] 0x9000) 0x150 (exRaw 0) 0 _ 0
      { format := 1, gp := 0, start_ip := 0x100, end_ip := 0x200, name_ptr := 0x88,
        segbase := 0, table_len := 3, table_data := 0x9000 }
      [⟨0x100, 0x200, 0x9010⟩, ⟨0, 0, 0⟩] rfl (by decide) rfl (by decide) (by decide)⟩

/-- C14, as amended.  When the module enumeration reports not-found
(`dl_iterate_phdr` returns a value `≤ 0`) and the kernel table `kt` — the
cached one when `kernel_table.u.ti.table_data` is non-null, otherwise the one
this call retrieves successfully — does not cover `ip`, the call returns
`-UNW_ENOINFO` without reaching the table search. -/
theorem find_proc_info_no_info (c : Consts) (E : ElfConsts) (gp_reg : Nat)
    (dyn_at : Nat → List Elf64_Dyn) (modules : List dl_phdr_info) (size : Nat) (k : Kernel)
    (cache : KernelCache) (ip : Nat) (di0 : dyn_info_raw) (found : Int) (dif : dyn_info_raw)
    (kt : dyn_info_raw) (buf : List ia64_table_entry) (n : Nat)
    (hdl : dl_iterate_phdr (callback c E gp_reg dyn_at) size modules { di0 with segbase := ip }
      = Exec.done (found, dif))
    (hnf : found ≤ 0)
    (hk : (cache.kernel_table.table_data ≠ 0 ∧ kt = cache.kernel_table ∧ buf = cache.buffer
            ∧ n = 0)
        ∨ (cache.kernel_table.table_data = 0 ∧ n = 1 ∧
            ∃ ret, 0 ≤ ret ∧
              _Uia64_get_kernel_table c k cache.kernel_table = Exec.done (ret, kt, buf)))
    (hout : ip < kt.start_ip ∨ ip ≥ kt.end_ip) :
    tdep_find_proc_info c E gp_reg dyn_at modules size k cache ip di0
      = Exec.done { outcome := FindOutcome.ret (-c.UNW_ENOINFO),
                    cache := { kernel_table := kt, buffer := buf }, retrievals := n } := by
  rcases hk with ⟨hnn, rfl, rfl, rfl⟩ | ⟨hnull, rfl, ret, hret, hget⟩
  · simp only [tdep_find_proc_info, hdl, if_pos hnf, if_neg hnn, if_pos hout]
  · have hneg : ¬ ret < 0 := by omega
    simp only [tdep_find_proc_info, hdl, if_pos hnf, if_pos hnull, hget, if_neg hneg,
      if_pos hout]

/-- Witness for C14: no module loaded, the kernel table `[0x100, 0x200)` is
retrieved by the call, and `ip = 0x250` lies outside it. -/
theorem find_proc_info_no_info_witness :
    ∃ kt buf, tdep_find_proc_info unwConsts elfConsts 0x999 (fun _ => []) [] 64
        (exKernel [⟨0x100, 0x200, 0x10⟩, ⟨0, 0, 0⟩] 0x9000) exCacheEmpty 0x250 (exRaw 0)
      = Exec.done { outcome := FindOutcome.ret (-unwConsts.UNW_ENOINFO),
                    cache := { kernel_table := kt, buffer := buf }, retrievals := 1 } :=
  ⟨_, _,
    find_proc_info_no_info unwConsts elfConsts 0x999 (fun _ => []) [] 64
      (exKernel [⟨0x100, 0x200, 0x10⟩, ⟨0, 0, 0⟩] 0x9000) exCacheEmpty 0x250 (exRaw 0) 0 _
      { format := 1, gp := 0, start_ip := 0x100, end_ip := 0x200, name_ptr := 0x88,
        segbase := 0, table_len := 3, table_data := 0x9000 }
      [⟨0x100, 0x200, 0x9010⟩, ⟨0, 0, 0⟩] 1 rfl (by decide)
      (Or.inr ⟨rfl, rfl, 0, by decide, by decide⟩) (Or.inr (by decide))⟩

/-- Counterexample to C14 as stated.  No module is loaded, the static kernel
table is still all zero (so `ip = 5` is outside its range `[0, 0)`), and
`sos_alloc` fails: the call returns `-UNW_ENOMEM`, not `-UNW_ENOINFO`. -/
theorem find_proc_info_enomem_counterexample :
    dl_iterate_phdr (callback unwConsts elfConsts 0x999 (fun _ => [])) 64 []
        { exRaw 0 with segbase := 5 } = Exec.done (0, { exRaw 0 with segbase := 5 })
    ∧ (5 < exCacheEmpty.kernel_table.start_ip ∨ 5 ≥ exCacheEmpty.kernel_table.end_ip)
    ∧ tdep_find_proc_info unwConsts elfConsts 0x999 (fun _ => []) [] 64
          (exKernel [⟨0x100, 0x200, 0x10⟩, ⟨0, 0, 0⟩] 0) exCacheEmpty 5 (exRaw 0)
        = Exec.done { outcome := FindOutcome.ret (-unwConsts.UNW_ENOMEM),
                      cache := exCacheEmpty, retrievals := 1 }
    ∧ FindOutcome.ret (-unwConsts.UNW_ENOMEM) ≠ FindOutcome.ret (-unwConsts.UNW_ENOINFO) := by
  refine ⟨rfl, by decide, by decide, by decide⟩

end TablesIa64
